import Mathlib

/-!
Verification of the bracket engine of `ncaa.py` (class `Tournament` /
`TournamentGame` and their helpers), as a shallow embedding.

Modelling conventions (the source is Python 2):
* integer `/` on nonnegative ints is `Nat` division; on possibly-negative
  ints it is floor division (`Int.fdiv`); `%` is `Int.emod` (sign of divisor);
* Python exceptions are modelled by `Except PyErr` (or by a returned
  `Option PyErr` where the partially mutated state matters);
* SQLAlchemy entity attributes that the engine reads (`Squad.id`,
  `Squad.seed`, `Squad.team.name`) are plain record fields; object identity
  comparison (`==` / `is` on entities, which SQLAlchemy leaves at identity)
  is modelled as structural equality;
* a heap slot's `winner`/`loser`/`opponents` may hold arbitrary Python
  values fed in by the decision callback, so they hold `Val` (a squad or a
  number), and `None` is `Option.none`.
-/

namespace NCAA

/-! ### Data model -/

/-- `Team`: only the field the bracket engine reads. -/
structure Team where
  name : String
deriving DecidableEq, Repr, Inhabited

/-- `Squad`: only the fields the bracket engine reads (`id`, `seed`,
`team`). -/
structure Squad where
  sid : Nat
  seed : Int
  team : Team
deriving DecidableEq, Repr, Inhabited

/-- A Python value that can end up in a game slot: a `Squad` entity or a
bare number (the decision callback may return numbers which the
tuple-branch of `simulate` stores verbatim). -/
inductive Val where
  | squad (s : Squad)
  | num (n : Int)
deriving DecidableEq, Repr, Inhabited

/-- `TournamentGame`: one heap slot. `__init__(tournament, index)` sets
`index` and `accurate = None`; the relational defaults leave `opponents`
empty and `winner`/`loser`/scores `None`. -/
structure TGame where
  index : Nat
  opponents : List Val := []
  winner : Option Val := none
  loser : Option Val := none
  winner_score : Option Int := none
  loser_score : Option Int := none
  accurate : Option Bool := none
deriving DecidableEq, Repr, Inhabited

/-- `Tournament`: the fields the engine reads/writes.  `pointsmap` is a
Python dict keyed by round label, modelled as an association list in
insertion order with unique keys maintained by `dictUpdate`. -/
structure Tournament where
  season : String
  regions : List String
  rounds : List String
  delim : String
  games : List TGame
  pointsmap : List (String × Int)
  points : Option Int := none
deriving DecidableEq, Repr, Inhabited

/-- The Python exceptions the engine can raise.  Both the explicit
`raise IndexError` guarding the opponents count in `simulate` (which we
tag with the offending heap index) and an out-of-range list subscript are
Python `IndexError`s; we keep them apart because they come from distinct
raise sites. -/
inductive PyErr where
  | badOpponents (idx : Nat)
  | indexError
  | valueError
  | typeError
  | nameError
  | keyError
  | attributeError
  | notImplementedError
  | zeroDivisionError
deriving DecidableEq, Repr, Inhabited

/-! ### Python semantics helpers -/

deriving instance DecidableEq for Except

/-- One halving step of ncaa.py's `log2` loop, with structural fuel (the
loop runs at most `x` times since `x` strictly shrinks while `x > 1`). -/
def log2Aux : Nat → Nat → Nat
  | 0, _ => 0
  | fuel + 1, x => if x > 1 then log2Aux fuel (x / 2) + 1 else 0

/-- `log2` from ncaa.py: `t=0; while x>1: x >>= 1; t += 1; return t`. -/
def log2 (x : Nat) : Nat := log2Aux x x

/-- Resolve a Python list subscript (negative indices wrap once). -/
def pyIdx (len : Nat) (i : Int) : Option Nat :=
  if 0 ≤ i then (if i < (len : Int) then some i.toNat else none)
  else (if -i ≤ (len : Int) then some (len - (-i).toNat) else none)

/-- Python `l[i]` for `i : Int` (raises `IndexError` out of range). -/
def pyGet (l : List α) (i : Int) : Except PyErr α :=
  match pyIdx l.length i with
  | some j =>
    match l.get? j with
    | some a => .ok a
    | none => .error .indexError
  | none => .error .indexError

/-- Python `l[i]` for a nonnegative subscript. -/
def pyGetNat (l : List α) (i : Nat) : Except PyErr α :=
  match l.get? i with
  | some a => .ok a
  | none => .error .indexError

/-- Is `sub` an initial segment of `s`? (building block for Python's
substring operators). -/
def isPrefixL : List Char → List Char → Bool
  | [], _ => true
  | _ :: _, [] => false
  | a :: as, b :: bs => a == b && isPrefixL as bs

/-- Does `sub` occur as a contiguous run inside `s`? -/
def containsSubL (sub : List Char) : List Char → Bool
  | [] => isPrefixL sub []
  | a :: rest => isPrefixL sub (a :: rest) || containsSubL sub rest

/-- The characters of `s` before the first occurrence of `sub` (all of `s`
when `sub` does not occur) — Python `s.partition(sub)[0]`. -/
def partitionBeforeL (sub : List Char) : List Char → List Char
  | [] => []
  | a :: rest =>
    if isPrefixL sub (a :: rest) then [] else a :: partitionBeforeL sub rest

/-- Python `sub in s` on strings (empty `sub` is contained in anything). -/
def pyIn (sub s : String) : Bool :=
  containsSubL sub.toList s.toList

/-- Python `s.partition(sep)[0]`; an empty separator raises `ValueError`. -/
def pyPartitionFst (s sep : String) : Except PyErr String :=
  if sep = "" then .error .valueError
  else .ok (String.mk (partitionBeforeL sep.toList s.toList))

/-- Python `sep.join(strs)`. -/
def pyJoin (sep : String) : List String → String
  | [] => ""
  | [a] => a
  | a :: b :: rest => a ++ sep ++ pyJoin sep (b :: rest)

/-- Python `l.index(x)` (raises `ValueError` when absent). -/
def pyListIndex [BEq α] (l : List α) (x : α) : Except PyErr Nat :=
  match l.findIdx? (· == x) with
  | some i => .ok i
  | none => .error .valueError

/-- `TournamentGame.next`: `((index+1)/2) - 1`, `None` when negative
(i.e. exactly at the root, index 0). -/
def parentIdx (j : Nat) : Option Nat :=
  if j = 0 then none else some ((j + 1) / 2 - 1)

/-! ### Construction (`__init__` + `_reconstruct`) -/

/-- `Tournament.roundpoints` (ESPN defaults, championship first). -/
def roundpoints : List Int := [320, 160, 80, 40, 20, 10]

/-- The default round labels `_reconstruct` installs when none given. -/
def defaultRounds : List String :=
  ["finals", "finalfour", "elite8", "sweet16", "2nd", "1st"]

/-- The default region labels of `Tournament.__init__`. -/
def defaultRegions : List String := ["North", "East", "South", "West"]

/-- Python dict update `m[k] = v` on the association-list model: replace
the value at an existing key, else append a fresh entry. -/
def dictUpdate (m : List (String × Int)) (k : String) (v : Int) :
    List (String × Int) :=
  if m.any (fun p => p.1 == k) then
    m.map (fun p => if p.1 == k then (k, v) else p)
  else m ++ [(k, v)]

/-- Python dict lookup returning `none` when the key is absent. -/
def dictGet (m : List (String × Int)) (k : String) : Option Int :=
  (m.find? (fun p => p.1 == k)).map (·.2)

/-- Python `dict(pairs)` (later entries win, insertion order kept). -/
def dictFromPairs (ps : List (String × Int)) : List (String × Int) :=
  ps.foldl (fun m p => dictUpdate m p.1 p.2) []

/-- `dict(zip(self.rounds, self.roundpoints))` from `_reconstruct`. -/
def initPointsmap (rounds : List String) : List (String × Int) :=
  dictFromPairs (rounds.zip roundpoints)

/-- `Tournament.__init__` followed by `_reconstruct` (fresh object, no
DB state): `(1 << len(rounds)) - 1` empty games, default pointsmap. -/
def mkTournament (season : String)
    (regions : List String := defaultRegions)
    (rounds : Option (List String) := none)
    (delim : String := "/") : Tournament :=
  let rds := rounds.getD defaultRounds
  { season := season
    regions := regions
    rounds := rds
    delim := delim
    games := (List.range ((1 <<< rds.length) - 1)).map (fun i => { index := i })
    pointsmap := initPointsmap rds
    points := none }

/-! ### `Tournament.lookup` and `Tournament.index` -/

/-- `Tournament.lookup(n)`: heap index → `(round label, region label or
None, slot or None)`.  `gsize = (1 << round_id) / len(self.regions)`
(Python 2 integer division; an empty regions list raises
`ZeroDivisionError`). -/
def Tournament.lookup (t : Tournament) (n : Nat) :
    Except PyErr (String × Option String × Option Nat) := do
  let n1 := n + 1
  let round_id := log2 n1
  let k := n1 - (1 <<< round_id)
  if t.regions.length = 0 then .error .zeroDivisionError
  else
    let gsize := (1 <<< round_id) / t.regions.length
    if gsize = 0 then
      if round_id = 0 then do
        let r ← pyGetNat t.rounds 0
        .ok (r, none, none)
      else do
        let tname :=
          if n1 ≤ 2 then pyJoin t.delim (t.regions.take 2)
          else pyJoin t.delim (t.regions.drop (t.regions.length - 2))
        let r ← pyGetNat t.rounds round_id
        .ok (r, some tname, none)
    else do
      let region_id := k / gsize
      let num := k % gsize
      let r ← pyGetNat t.rounds round_id
      let reg ← pyGetNat t.regions region_id
      .ok (r, some reg, some num)

/-- The polymorphic `region` parameter of `Tournament.index`: an int, a
label, or `None`. -/
inductive RegionArg where
  | int (i : Int)
  | str (s : String)
  | noneV
deriving DecidableEq, Repr

/-- The polymorphic `round_` parameter of `Tournament.index`. -/
inductive RoundArg where
  | int (i : Int)
  | str (s : String)
deriving DecidableEq, Repr

/-- `Tournament.index(round_, region=0, n=0)`.  Note the hardcoded
`gsize = (1 << round_) / 4` (unlike `lookup`, which divides by
`len(self.regions)`).  `n` may be `None` (as produced by `lookup` for the
top rows); using it in the final arithmetic raises `TypeError`. -/
def Tournament.index (t : Tournament) (round_ : RoundArg)
    (region : RegionArg := .int 0) (n : Option Int := some 0) :
    Except PyErr Int := do
  let regionVal : Int ←
    match region with
    | .int i => Except.ok i
    | .noneV => Except.ok 0
    | .str s => do
      let s' ← if pyIn t.delim s then pyPartitionFst s t.delim else .ok s
      let i ← pyListIndex t.regions s'
      Except.ok (i : Int)
  let roundVal : Int ←
    match round_ with
    | .int i => Except.ok i
    | .str s => do
      let i ← pyListIndex t.rounds s
      Except.ok (i : Int)
  if roundVal < 0 then .error .valueError
  else
    let rv := roundVal.toNat
    let rowinitid : Int := ((1 <<< rv) - 1 : Nat)
    let gsize : Int := ((1 <<< rv) / 4 : Nat)
    if gsize = 0 then
      if roundVal = 0 then .ok 0
      else .ok (regionVal.fdiv 2 + 1)
    else
      match n with
      | none => .error .typeError
      | some nv => .ok (rowinitid + regionVal * gsize + nv)

/-- `index(*lookup(n))`: the round-trip of the spec. -/
def roundTrip (t : Tournament) (n : Nat) : Except PyErr Int := do
  let (r, reg, num) ← t.lookup n
  t.index (.str r)
    (match reg with | some s => .str s | none => .noneV)
    (num.map (fun m => (m : Int)))

/-! ### `Tournament.simulate` -/

/-- The possible runtime shapes of the decision callback's return value,
the type tags `simulate` dispatches on.  A bare `Game` instance (exact
type — not a `TournamentGame`) is kept as a tag only: `simulate` rebinds
the loop variable to it and then calls `.next()` on it, and `Game` has no
`next` method, so that branch always dies with `AttributeError`.  A
`list` is caught by the `tuple or list` branch; the later
`np.ndarray or list` test can only trigger for an actual ndarray. -/
inductive DecideRes where
  | game
  | tup (xs : List Val)
  | lst (xs : List Val)
  | squad (s : Squad)
  | int (i : Int)
  | ndarray (xs : List Int)
  | other
deriving DecidableEq, Repr, Inhabited

/-- Normalize the decision callback's return value into the
`(winner, loser)` pair that `simulate` records, following the `if`-chain
of `Tournament.simulate` (the errors each branch can raise included). -/
def interpretDecide (r : DecideRes) (tgame : TGame) :
    Except PyErr (Val × Val) :=
  match r with
  | .game =>
    -- `tgame = r` rebinds the local only; `tgame.next()` then raises
    -- AttributeError because a plain `Game` has no `next` method, before
    -- anything is written to the heap slot.
    .error .attributeError
  | .tup xs => do
    let w ← pyGetNat xs 0
    let l ← pyGetNat xs 1
    .ok (w, l)
  | .lst xs => do
    -- same branch as tuples: `type(r) is tuple or type(r) is list`
    let w ← pyGetNat xs 0
    let l ← pyGetNat xs 1
    .ok (w, l)
  | .squad s => do
    let idx ← pyListIndex tgame.opponents (Val.squad s)
    let l ← pyGet tgame.opponents (((idx : Int) + 1) % 2)
    .ok (Val.squad s, l)
  | .int i => do
    let w ← pyGet tgame.opponents i
    let l ← pyGet tgame.opponents ((i + 1) % 2)
    .ok (w, l)
  | .ndarray xs => do
    let i0 ← pyGetNat xs 0
    let w ← pyGet tgame.opponents (i0 : Int)
    let l ← pyGet tgame.opponents (((i0 : Int) + 1) % 2)
    .ok (w, l)
  | .other => .error .notImplementedError

/-- One iteration of `simulate`'s loop, visiting heap index `j`: require
exactly 2 opponents (else the bare `raise IndexError`, tagged here with
the offending index), normalize the decision, record winner/loser, and
append the winner to the parent's `opponents` via `tgame.next()`. -/
def simStep (decide : TGame → DecideRes) (st : List TGame) (j : Nat) :
    Except PyErr (List TGame) := do
  let tgame ← pyGetNat st j
  if tgame.opponents.length ≠ 2 then .error (.badOpponents j)
  else do
    let (w, l) ← interpretDecide (decide tgame) tgame
    let st' := st.set j { tgame with winner := some w, loser := some l }
    match parentIdx j with
    | none => .ok st'
    | some p => do
      let pg ← pyGetNat st' p
      .ok (st'.set p { pg with opponents := pg.opponents ++ [w] })

/-- `for tgame in self:` iterates `get_by_id` from index `len-1` down to
`0`; `simRun decide k st` performs the iterations at indices
`k-1, k-2, …, 0`, propagating the first raised exception. -/
def simRun (decide : TGame → DecideRes) : Nat → List TGame →
    Except PyErr (List TGame)
  | 0, st => .ok st
  | k + 1, st => do
    let st' ← simStep decide st k
    simRun decide k st'

/-- `Tournament.simulate(decide)`. -/
def Tournament.simulate (t : Tournament) (decide : TGame → DecideRes) :
    Except PyErr Tournament := do
  let gs ← simRun decide t.games.length t.games
  .ok { t with games := gs }

/-! ### `Tournament.correct` -/

/-- The loop of `Tournament.correct`: for `i in range(len(realtourny))`
set `self[i].accurate` from `realtourny[i].winner`.  Returns the (possibly
partially) mutated games list together with the raised exception, if any
(`self[i]` raises `IndexError` when `self` is shorter than `real`).
Structural fuel stands in for the remaining loop length; `correctFrom`
supplies exactly `len(real) - i`, so the fuel never runs out early. -/
def correctLoop (real : List TGame) : Nat → Nat → List TGame →
    List TGame × Option PyErr
  | 0, _, st => (st, none)
  | fuel + 1, i, st =>
    if h : i < real.length then
      match st.get? i with
      | none => (st, some .indexError)
      | some sg =>
        let rg := real.get ⟨i, h⟩
        let acc : Option Bool :=
          if rg.winner = none then none
          else some (decide (rg.winner = sg.winner))
        correctLoop real fuel (i + 1) (st.set i { sg with accurate := acc })
    else (st, none)

/-- The loop of `Tournament.correct` from index `i` on. -/
def correctFrom (real : List TGame) (st : List TGame) (i : Nat) :
    List TGame × Option PyErr :=
  correctLoop real (real.length - i) i st

/-- `Tournament.correct(realtourny)`: sets `accurate` to `True`/`False`/
`None` slot by slot. -/
def Tournament.correct (t : Tournament) (real : Tournament) :
    Tournament × Option PyErr :=
  let (gs, e) := correctFrom real.games t.games 0
  ({ t with games := gs }, e)

/-! ### `Tournament.score` -/

/-- The polymorphic `pointsmap` argument of `score`: `None`, a list of
per-round values (championship first), a dict, or anything else
(`ValueError`). -/
inductive PointsArg where
  | noneV
  | lst (xs : List Int)
  | dict (xs : List (String × Int))
  | other
deriving DecidableEq, Repr

/-- The dict branch of `score`'s pointsmap handling: for each supplied
`(key, val)`, `self.pointsmap[key] = val` if `key` is a known round label,
else raise `NameError` — with the updates made so far kept. -/
def mergeDict (rounds : List String) (pm : List (String × Int)) :
    List (String × Int) → List (String × Int) × Option PyErr
  | [] => (pm, none)
  | (k, v) :: rest =>
    if k ∈ rounds then mergeDict rounds (dictUpdate pm k v) rest
    else (pm, some .nameError)

/-- The summation loop of `score`: add `self.pointsmap[rounds[log2(i+1)]]`
for every game whose `accurate` is truthy (`True`; `False` and `None` are
falsy).  Returns the partial sum together with the raised exception, if
any (list `IndexError` / dict `KeyError`). -/
def sumPointsLoop (rounds : List String) (pm : List (String × Int)) :
    List TGame → Int → Int × Option PyErr
  | [], acc => (acc, none)
  | g :: gs, acc =>
    if g.accurate = some true then
      match pyGetNat rounds (log2 (g.index + 1)) with
      | .error e => (acc, some e)
      | .ok lbl =>
        match dictGet pm lbl with
        | none => (acc, some .keyError)
        | some v => sumPointsLoop rounds pm gs (acc + v)
    else sumPointsLoop rounds pm gs acc

/-- The tail of `score` after the pointsmap argument has been absorbed:
`self.correct(realtourny)`, then `self.points = 0` and the summation
loop, storing the (possibly partial) total in `self.points`. -/
def scoreMain (t real : Tournament) : Tournament × Except PyErr Int :=
  let (gs, e) := correctFrom real.games t.games 0
  let t1 := { t with games := gs }
  match e with
  | some err => (t1, .error err)
  | none =>
    let (acc, e2) := sumPointsLoop t1.rounds t1.pointsmap t1.games 0
    let t2 := { t1 with points := some acc }
    match e2 with
    | some err => (t2, .error err)
    | none => (t2, .ok acc)

/-- `Tournament.score(realtourny, pointsmap=None)`.  A list argument
replaces the stored pointsmap by `dict(zip(self.rounds, pointsmap))`; a
dict argument is merged key by key (unknown round label → `NameError`
raised before any correction or summation); any other non-`None` value is
a `ValueError`.  Returns the mutated tournament and the result. -/
def Tournament.score (t real : Tournament)
    (pointsmap : PointsArg := .noneV) : Tournament × Except PyErr Int :=
  match pointsmap with
  | .noneV => scoreMain t real
  | .lst xs => scoreMain { t with pointsmap := dictFromPairs (t.rounds.zip xs) } real
  | .dict xs =>
    let (pm, e) := mergeDict t.rounds t.pointsmap xs
    let t1 := { t with pointsmap := pm }
    match e with
    | some err => (t1, .error err)
    | none => scoreMain t1 real
  | .other => (t, .error .valueError)

/-! ### `Tournament.export` (heap format) -/

/-- The node shape produced by `_createNode`: id, team name, and the
`data` record (`sid`, `seed`, `points`). -/
structure ExpNode where
  nid : Nat
  name : String
  sid : Nat
  seed : Int
  points : Option Int
deriving DecidableEq, Repr

/-- `_createNode(id_, squad, score)` — `squad.team.name` raises
`AttributeError` when `squad` is `None` or a bare number. -/
def createNode (id_ : Nat) (squad : Option Val) (score : Option Int) :
    Except PyErr ExpNode :=
  match squad with
  | some (.squad s) => .ok ⟨id_, s.team.name, s.sid, s.seed, score⟩
  | some (.num _) => .error .attributeError
  | none => .error .attributeError

/-- `_createNode` on a value known to be a `Squad`. -/
def createNodeS (id_ : Nat) (s : Squad) (score : Option Int) : ExpNode :=
  ⟨id_, s.team.name, s.sid, s.seed, score⟩

/-- Reading `.seed` off every opponent (raises `AttributeError` on a
non-squad). -/
def toSquads : List Val → Except PyErr (List Squad)
  | [] => .ok []
  | .squad s :: rest => do
    let r ← toSquads rest
    .ok (s :: r)
  | .num _ :: _ => .error .attributeError

/-- Stable descending insertion by key, the semantics of Python's
`sorted(l, key=key, reverse=True)` (ties keep original order). -/
def insDesc (key : α → Int) (a : α) : List α → List α
  | [] => [a]
  | b :: bs => if key a ≥ key b then a :: b :: bs else b :: insDesc key a bs

/-- Python `sorted(l, key=key, reverse=True)`. -/
def pySortDesc (key : α → Int) : List α → List α
  | [] => []
  | a :: rest => insDesc key a (pySortDesc key rest)

/-- The body of the second `heap`-format loop for game `i`: sort the
opponents by seed descending, pair them with the right scores, and emit
the two synthetic nodes with ids `2*i+1` and `2*i+2`. -/
def heapOpponentNodes (t : Tournament) (i : Nat) :
    Except PyErr (List ExpNode) := do
  let g ← pyGetNat t.games i
  let sqs ← toSquads g.opponents
  let ops := pySortDesc Squad.seed sqs
  let o1 ← pyGetNat ops 1
  let scores :=
    if g.winner = some (Val.squad o1) then [g.loser_score, g.winner_score]
    else [g.winner_score, g.loser_score]
  let o0 ← pyGetNat ops 0
  let s0 ← pyGetNat scores 0
  let s1 ← pyGetNat scores 1
  .ok [createNodeS ((i <<< 1) + 1) o0 s0, createNodeS ((i <<< 1) + 2) o1 s1]

/-- The `heap` format of `Tournament.export`: one node per game carrying
its winner, then — for `i` in `range(log2(len(self)) - 1, len(self))` —
the two opponent nodes of game `i`.  (For `len(self) ≥ 2` the Python
start index `log2(len(self)) - 1` is nonnegative and agrees with this
`Nat` subtraction.) -/
def exportHeapNodes (t : Tournament) : Except PyErr (List ExpNode) := do
  let base ← (List.range t.games.length).mapM (fun i => do
    let g ← pyGetNat t.games i
    createNode i g.winner g.winner_score)
  let fri := log2 t.games.length - 1
  let extra ← ((List.range t.games.length).drop fri).mapM
    (fun i => heapOpponentNodes t i)
  .ok (base ++ extra.flatten)

/-- The number of nodes `export('heap')` emits, when it succeeds. -/
def heapNodeCount (t : Tournament) : Option Nat :=
  match exportHeapNodes t with
  | .ok l => some l.length
  | .error _ => none

/-! ### Concrete instances used by counterexamples and witnesses -/

/-- A squad wrapped as a slot value. -/
def vq (i : Nat) (sd : Int) (nm : String) : Val := .squad ⟨i, sd, ⟨nm⟩⟩

def vA : Val := vq 1 1 "A"
def vB : Val := vq 2 2 "B"
def vC : Val := vq 3 3 "C"
def vD : Val := vq 4 4 "D"
def vE : Val := vq 5 5 "E"
def vF : Val := vq 6 6 "F"
def vG : Val := vq 7 7 "G"
def vH : Val := vq 8 8 "H"

/-- A fully decided 3-round bracket (7 games; first round at indices
3–6); every game carries exactly 2 opponents and a winner, exactly the
state a successful `simulate` leaves behind. -/
def tFull3 : Tournament :=
  { season := "sim", regions := ["N", "E", "S", "W"],
    rounds := ["f", "s", "o"], delim := "/",
    games := [
      ⟨0, [vA, vE], some vA, some vE, none, none, none⟩,
      ⟨1, [vC, vA], some vA, some vC, none, none, none⟩,
      ⟨2, [vG, vE], some vE, some vG, none, none, none⟩,
      ⟨3, [vA, vB], some vA, some vB, none, none, none⟩,
      ⟨4, [vC, vD], some vC, some vD, none, none, none⟩,
      ⟨5, [vE, vF], some vE, some vF, none, none, none⟩,
      ⟨6, [vG, vH], some vG, some vH, none, none, none⟩],
    pointsmap := [], points := none }

/-- A 2-round bracket seeded only with first-round opponents. -/
def tSeed2 : Tournament :=
  { season := "e", regions := ["N", "E", "S", "W"], rounds := ["f", "o"],
    delim := "/",
    games := [⟨0, [], none, none, none, none, none⟩,
              ⟨1, [.num 1, .num 2], none, none, none, none, none⟩,
              ⟨2, [.num 3, .num 4], none, none, none, none, none⟩],
    pointsmap := [], points := none }

/-- The state `simulate` (with the always-pick-`opponents[0]` decider)
leaves `tSeed2` in. -/
def tSeed2Done : Tournament :=
  { tSeed2 with
    games := [⟨0, [.num 3, .num 1], some (.num 3), some (.num 1),
                none, none, none⟩,
              ⟨1, [.num 1, .num 2], some (.num 1), some (.num 2),
                none, none, none⟩,
              ⟨2, [.num 3, .num 4], some (.num 3), some (.num 4),
                none, none, none⟩] }

/-- A bracket with two regions and two rounds (4-team tournament). -/
def tTwoRegions : Tournament :=
  { season := "s", regions := ["E", "W"], rounds := ["r0", "r1"],
    delim := "/", games := [], pointsmap := [], points := none }

/-- A fully-accurate-to-be 2-round simulated bracket for scoring. -/
def tScoreSim : Tournament :=
  { season := "sim", regions := ["N", "E", "S", "W"],
    rounds := ["r0", "r1"], delim := "/",
    games := [⟨0, [], some (.num 1), none, none, none, none⟩,
              ⟨1, [], some (.num 2), none, none, none, none⟩,
              ⟨2, [], some (.num 3), none, none, none, none⟩],
    pointsmap := initPointsmap ["r0", "r1"], points := none }

/-- The real outcomes matching `tScoreSim` exactly. -/
def tScoreReal : Tournament := { tScoreSim with season := "real" }

/-- A single undecided game with two (numeric) opponents. -/
def gC9 : TGame := ⟨0, [.num 10, .num 20], none, none, none, none, none⟩

/-! ## Basic lemmas -/

theorem log2Aux_eq (fuel x : Nat) (h : x ≤ fuel) : log2Aux fuel x = Nat.log2 x := by
  induction fuel generalizing x with
  | zero => interval_cases x; simp [log2Aux, Nat.log2]
  | succ n ih =>
    rw [log2Aux, Nat.log2]
    rcases Nat.lt_or_ge 1 x with hx | hx
    · rw [if_pos hx, if_pos (by omega),
        ih _ (by have := Nat.div_lt_self (by omega : 0 < x) (by omega : 1 < 2); omega)]
    · rw [if_neg (by omega), if_neg (by omega)]

theorem log2_eq (x : Nat) : log2 x = Nat.log2 x := log2Aux_eq x x le_rfl

theorem pyGetNat_eq_ok {l : List α} {i : Nat} {a : α} :
    pyGetNat l i = .ok a ↔ l.get? i = some a := by
  unfold pyGetNat
  cases h : l.get? i <;> simp

theorem pyGetNat_of_get? {l : List α} {i : Nat} {a : α}
    (h : l.get? i = some a) : pyGetNat l i = .ok a :=
  pyGetNat_eq_ok.mpr h

theorem pyGet_zero {l : List α} {a : α} (h : l.get? 0 = some a) :
    pyGet l 0 = .ok a := by
  have hl : 0 < l.length := by cases l <;> simp_all
  have hl' : (0 : Int) < l.length := by exact_mod_cast hl
  have h' : l[0]? = some a := by rw [← List.get?_eq_getElem?]; exact h
  simp [pyGet, pyIdx, hl', h']

theorem pyGet_one {l : List α} {a : α} (h : l.get? 1 = some a) :
    pyGet l 1 = .ok a := by
  have hl : 1 < l.length := by
    rcases l with _ | ⟨x, _ | ⟨y, tl⟩⟩ <;> simp_all
  have hl' : (1 : Int) < l.length := by exact_mod_cast hl
  have h' : l[1]? = some a := by rw [← List.get?_eq_getElem?]; exact h
  simp [pyGet, pyIdx, hl', h']

/-- First-occurrence search of the `i`-th element of a duplicate-free
list finds exactly `i` (Python's `list.index`). -/
theorem findIdx?_nodup_get {l : List String} (hnd : l.Nodup) (i : Nat)
    (hi : i < l.length) :
    l.findIdx? (· == l.get ⟨i, hi⟩) = some i := by
  induction l generalizing i with
  | nil => simp at hi
  | cons a tl ih =>
    rcases i with _ | j
    · simp [List.findIdx?_cons]
    · have hj : j < tl.length := by simpa using hi
      have hmem : tl.get ⟨j, hj⟩ ∈ tl := tl.get_mem _ _
      have hne : a ≠ tl.get ⟨j, hj⟩ := by
        intro he
        exact (List.nodup_cons.mp hnd).1 (he ▸ hmem)
      rw [List.findIdx?_cons]
      simp only [List.get_cons_succ]
      rw [if_neg (by simpa using hne), List.findIdx?_succ,
        ih (List.nodup_cons.mp hnd).2 j hj]
      rfl

theorem pyListIndex_nodup_get {l : List String} (hnd : l.Nodup) (i : Nat)
    (hi : i < l.length) : pyListIndex l (l.get ⟨i, hi⟩) = .ok i := by
  unfold pyListIndex
  rw [findIdx?_nodup_get hnd i hi]

/-! ## C1 — `index` is the left inverse of `lookup` -/

/-- C1, counterexample: with a 2-element regions list (and 2 rounds), the
valid heap index `n = 2 ≤ 2^R − 2` does not round-trip: `lookup 2` names
the second region of the last round, but `index` (whose `gsize` hardcodes
4 regions) sends that coordinate to 1.  So `index` is not a left inverse
of `lookup` for every regions list. -/
theorem c1_counterexample :
    roundTrip tTwoRegions 2 = .ok 1 ∧
    2 + 2 ≤ 2 ^ tTwoRegions.rounds.length ∧
    (Except.ok 1 : Except PyErr Int) ≠ .ok 2 := by decide

/-! ## C2 — `export('heap')` node count -/

/-- C2, code bug: on the fully decided 3-round bracket `tFull3`
(7 games, first round = indices 3–6), `export('heap')` emits 19 nodes,
not the (2^R − 1) + 2·2^(R−1) = 15 the spec (and the code's own comment,
which says the opponents loop walks "1st round games") require: the loop
starts at `log2(len(self)) - 1 = R - 2 = 1` instead of the first-round
start `2^(R-1) - 1 = 3`, so non-first-round games get opponent nodes
too. -/
theorem c2_heap_export_overcount :
    heapNodeCount tFull3 = some 19 ∧
    19 ≠ (2 ^ 3 - 1) + 2 * 2 ^ (3 - 1) := by decide

/-! ## C9 — numeric-sequence decision results -/

/-- C9, code bug: a `list` whose head is a valid opponents index is NOT
given the integer-index normalization: it is captured by the earlier
`type(r) is tuple or type(r) is list` branch (making the
`np.ndarray or list` test dead code for lists), which reads it as a
`(winner, loser)` pair — here raising `IndexError` on `r[1]` instead of
recording `winner = opponents[0]`.  An actual ndarray with the same
content gets the claimed treatment. -/
theorem c9_list_vs_ndarray :
    simStep (fun _ => DecideRes.lst [.num 0]) [gC9] 0 =
      .error .indexError ∧
    simStep (fun _ => DecideRes.ndarray [0]) [gC9] 0 =
      .ok [⟨0, [.num 10, .num 20], some (.num 10), some (.num 20),
            none, none, none⟩] := by decide

/-! ## C6 — the 2-opponents precondition of `simulate` -/

@[simp]
theorem ebind_ok (a : α) (f : α → Except PyErr γ) :
    (Except.ok a >>= f) = f a := rfl

@[simp]
theorem ebind_err (e : PyErr) (f : α → Except PyErr γ) :
    ((Except.error e : Except PyErr α) >>= f) = Except.error e := rfl

/-- Propagating "is not this particular error" through a bind. -/
theorem bind_no_err {x : Except PyErr α} {f : α → Except PyErr γ}
    {e : PyErr} (hx : x ≠ .error e) (hf : ∀ a, f a ≠ .error e) :
    (x >>= f) ≠ .error e := by
  cases x with
  | error e' =>
    intro hc
    exact hx (by simpa using hc)
  | ok a =>
    intro hc
    exact hf a (by simpa using hc)

theorem pyGetNat_no_badOpponents (l : List α) (i : Nat) (m : Nat) :
    pyGetNat l i ≠ .error (.badOpponents m) := by
  unfold pyGetNat
  split <;> simp

theorem pyGet_no_badOpponents (l : List α) (i : Int) (m : Nat) :
    pyGet l i ≠ .error (.badOpponents m) := by
  unfold pyGet
  repeat' split
  all_goals simp

theorem pyListIndex_no_badOpponents [BEq α] (l : List α) (x : α) (m : Nat) :
    pyListIndex l x ≠ .error (.badOpponents m) := by
  unfold pyListIndex
  split <;> simp

/-- The decision-normalization step can raise `AttributeError`,
`IndexError`, `ValueError` or `NotImplementedError`, but never the
opponents-count `IndexError` of the guard. -/
theorem interpretDecide_no_badOpponents (r : DecideRes) (g : TGame)
    (m : Nat) : interpretDecide r g ≠ .error (.badOpponents m) := by
  cases r with
  | game => simp [interpretDecide]
  | other => simp [interpretDecide]
  | tup xs =>
    simp only [interpretDecide]
    exact bind_no_err (pyGetNat_no_badOpponents xs 0 m) (fun w =>
      bind_no_err (pyGetNat_no_badOpponents xs 1 m) (fun l => by simp))
  | lst xs =>
    simp only [interpretDecide]
    exact bind_no_err (pyGetNat_no_badOpponents xs 0 m) (fun w =>
      bind_no_err (pyGetNat_no_badOpponents xs 1 m) (fun l => by simp))
  | squad s =>
    simp only [interpretDecide]
    exact bind_no_err (pyListIndex_no_badOpponents g.opponents _ m)
      (fun idx => bind_no_err (pyGet_no_badOpponents g.opponents _ m)
        (fun l => by simp))
  | int i =>
    simp only [interpretDecide]
    exact bind_no_err (pyGet_no_badOpponents g.opponents i m) (fun w =>
      bind_no_err (pyGet_no_badOpponents g.opponents _ m) (fun l => by simp))
  | ndarray xs =>
    simp only [interpretDecide]
    exact bind_no_err (pyGetNat_no_badOpponents xs 0 m) (fun i0 =>
      bind_no_err (pyGet_no_badOpponents g.opponents _ m) (fun w =>
        bind_no_err (pyGet_no_badOpponents g.opponents _ m)
          (fun l => by simp)))

/-- C6: visiting heap index `j`, `simulate` raises its guard
`IndexError` exactly when the visited game does not have exactly 2
opponents (and the exception aborts the run); a game with exactly 2
opponents can never trigger that guard (whatever the decision function
does). -/
theorem c6_opponents_guard (d : TGame → DecideRes) (st : List TGame)
    (j : Nat) (g : TGame) (hg : st.get? j = some g) :
    (g.opponents.length ≠ 2 → simStep d st j = .error (.badOpponents j)) ∧
    (g.opponents.length = 2 →
      ∀ m, simStep d st j ≠ .error (.badOpponents m)) ∧
    (∀ e, simStep d st j = .error e → simRun d (j + 1) st = .error e) := by
  refine ⟨?_, ?_, ?_⟩
  · intro hne
    simp [simStep, pyGetNat_of_get? hg, hne]
  · intro h2 m
    simp only [simStep, pyGetNat_of_get? hg, ebind_ok, h2]
    rw [if_neg (by omega : ¬(2 : Nat) ≠ 2)]
    refine bind_no_err (interpretDecide_no_badOpponents (d g) g m)
      (fun wl => ?_)
    cases parentIdx j with
    | none => simp
    | some p =>
      exact bind_no_err (pyGetNat_no_badOpponents _ p m) (fun pg => by simp)
  · intro e he
    simp [simRun, he]

/-- C6, witness: game 0 of `tSeed2` has an empty opponents list, so
visiting it raises the guard error tagged with index 0. -/
theorem c6_witness :
    simStep (fun _ => DecideRes.int 0) tSeed2.games 0 =
      .error (.badOpponents 0) :=
  (c6_opponents_guard (fun _ => DecideRes.int 0) tSeed2.games 0
    ⟨0, [], none, none, none, none, none⟩ (by decide)).1 (by decide)

/-! ## The `simulate` loop: step and run lemmas -/

theorem pyGetNat_of_getElem? {l : List α} {i : Nat} {a : α}
    (h : l[i]? = some a) : pyGetNat l i = .ok a :=
  pyGetNat_of_get? (by rw [List.get?_eq_getElem?]; exact h)

theorem parentIdx_lt {j p : Nat} (h : parentIdx j = some p) : p < j := by
  unfold parentIdx at h
  split at h
  · simp at h
  · next hj =>
    simp only [Option.some_inj] at h
    omega

theorem parentIdx_eq_some_iff {j p : Nat} :
    parentIdx j = some p ↔ (j = 2 * p + 1 ∨ j = 2 * p + 2) := by
  unfold parentIdx
  split
  · next hj =>
    subst hj
    constructor
    · intro h
      simp at h
    · intro h
      exact absurd h (by omega)
  · next hj =>
    simp only [Option.some_inj]
    omega

theorem parentIdx_eq_none_iff {j : Nat} : parentIdx j = none ↔ j = 0 := by
  unfold parentIdx
  split <;> simp_all

/-- The guard branch of the loop body: fewer or more than 2 opponents
raise the (tagged) `IndexError` at once. -/
theorem simStep_guard_err {d : TGame → DecideRes} {st : List TGame}
    {j : Nat} {g : TGame} (hg : st[j]? = some g)
    (hne : g.opponents.length ≠ 2) :
    simStep d st j = .error (.badOpponents j) := by
  simp [simStep, pyGetNat_of_getElem? hg, hne]

/-- The success branch of the loop body at the root (no parent). -/
theorem simStep_ok_root {d : TGame → DecideRes} {st : List TGame}
    {g : TGame} {w l : Val} (hg : st[0]? = some g)
    (h2 : g.opponents.length = 2)
    (hi : interpretDecide (d g) g = .ok (w, l)) :
    simStep d st 0 =
      .ok (st.set 0 { g with winner := some w, loser := some l }) := by
  simp [simStep, pyGetNat_of_getElem? hg, h2, hi, parentIdx]

/-- The success branch of the loop body away from the root: record the
result at `j` and append the winner to the parent's opponents. -/
theorem simStep_ok_child {d : TGame → DecideRes} {st : List TGame}
    {j p : Nat} {g pg : TGame} {w l : Val}
    (hg : st[j]? = some g) (h2 : g.opponents.length = 2)
    (hi : interpretDecide (d g) g = .ok (w, l))
    (hp : parentIdx j = some p) (hpg : st[p]? = some pg) :
    simStep d st j =
      .ok ((st.set j { g with winner := some w, loser := some l }).set p
        { pg with opponents := pg.opponents ++ [w] }) := by
  have hplt : p < j := parentIdx_lt hp
  have hpg' :
      (st.set j { g with winner := some w, loser := some l })[p]? = some pg := by
    rw [List.getElem?_set_ne (by omega : j ≠ p)]
    exact hpg
  simp [simStep, pyGetNat_of_getElem? hg, h2, hi, hp,
    pyGetNat_of_getElem? hpg']

/-- A missing heap slot surfaces as a plain list `IndexError`. -/
theorem simStep_get_err {d : TGame → DecideRes} {st : List TGame}
    {j : Nat} (hg : st[j]? = none) :
    simStep d st j = .error .indexError := by
  simp [simStep, pyGetNat, hg]

/-- A failing decision normalization aborts the iteration with its own
error. -/
theorem simStep_interpret_err {d : TGame → DecideRes} {st : List TGame}
    {j : Nat} {g : TGame} {e : PyErr} (hg : st[j]? = some g)
    (h2 : g.opponents.length = 2)
    (hi : interpretDecide (d g) g = .error e) :
    simStep d st j = .error e := by
  simp [simStep, pyGetNat_of_getElem? hg, h2, hi]

/-- Everything a successful loop-body iteration tells us. -/
theorem simStep_ok_facts {d : TGame → DecideRes} {st st' : List TGame}
    {j : Nat} (h : simStep d st j = .ok st') :
    ∃ g w l, st[j]? = some g ∧ g.opponents.length = 2 ∧
      interpretDecide (d g) g = .ok (w, l) ∧
      st'.length = st.length ∧
      st'[j]? = some { g with winner := some w, loser := some l } ∧
      (∀ q, q ≠ j → parentIdx j ≠ some q → st'[q]? = st[q]?) ∧
      (∀ q, parentIdx j ≠ some q →
        (st'[q]?).map TGame.opponents = (st[q]?).map TGame.opponents) ∧
      (∀ p pg, parentIdx j = some p → st[p]? = some pg →
        st'[p]? = some { pg with opponents := pg.opponents ++ [w] }) := by
  cases hg : st[j]? with
  | none =>
    rw [simStep_get_err hg] at h
    exact absurd h (by simp)
  | some g =>
    have hjlt : j < st.length := by
      by_contra hc
      rw [List.getElem?_eq_none (by omega)] at hg
      simp at hg
    by_cases h2 : g.opponents.length = 2
    · cases hi : interpretDecide (d g) g with
      | error e =>
        rw [simStep_interpret_err hg h2 hi] at h
        exact absurd h (by simp)
      | ok wl =>
        obtain ⟨w, l⟩ := wl
        refine ⟨g, w, l, rfl, h2, hi, ?_⟩
        cases hp : parentIdx j with
        | none =>
          obtain rfl : j = 0 := parentIdx_eq_none_iff.mp hp
          rw [simStep_ok_root hg h2 hi] at h
          simp only [Except.ok.injEq] at h
          subst h
          refine ⟨by simp, ?_, ?_, ?_, ?_⟩
          · simp [List.getElem?_set_self hjlt]
          · intro q hq _
            rw [List.getElem?_set_ne (by omega : (0 : Nat) ≠ q)]
          · intro q _
            by_cases hqj : q = 0
            · subst hqj
              simp [List.getElem?_set_self hjlt, hg]
            · rw [List.getElem?_set_ne (by omega : (0 : Nat) ≠ q)]
          · intro p pg hps
            simp [parentIdx] at hps
        | some p =>
          have hplt : p < j := parentIdx_lt hp
          have hplen : p < st.length := by omega
          have hpg : st[p]? = some st[p] := List.getElem?_eq_getElem hplen
          rw [simStep_ok_child hg h2 hi hp hpg] at h
          simp only [Except.ok.injEq] at h
          subst h
          refine ⟨by simp, ?_, ?_, ?_, ?_⟩
          · rw [List.getElem?_set_ne (by omega : p ≠ j)]
            simp [List.getElem?_set_self hjlt]
          · intro q hqj hqp
            rw [List.getElem?_set_ne (fun he => hqp (by rw [he])),
              List.getElem?_set_ne (by omega : j ≠ q)]
          · intro q hqp
            by_cases hqj : q = j
            · subst hqj
              rw [List.getElem?_set_ne (fun he => hqp (by rw [he]))]
              simp [List.getElem?_set_self hjlt, hg]
            · rw [List.getElem?_set_ne (fun he => hqp (by rw [he])),
                List.getElem?_set_ne (by omega : j ≠ q)]
          · intro p' pg' hps hpg''
            obtain rfl : p = p' := by simpa using hps
            rw [hpg] at hpg''
            obtain rfl : st[p] = pg' := by simpa using hpg''
            have hpl : p < (st.set j { g with winner := some w, loser := some l }).length := by
              simpa using hplen
            simp [List.getElem?_set_self hpl]
    · rw [simStep_guard_err hg h2] at h
      exact absurd h (by simp)

theorem simRun_ok_length {d : TGame → DecideRes} {k : Nat}
    {st st' : List TGame} (h : simRun d k st = .ok st') :
    st'.length = st.length := by
  induction k generalizing st with
  | zero =>
    simp only [simRun, Except.ok.injEq] at h
    rw [h]
  | succ n ih =>
    rw [simRun] at h
    cases hs : simStep d st n with
    | error e =>
      rw [hs] at h
      simp at h
    | ok st1 =>
      rw [hs] at h
      simp only [ebind_ok] at h
      obtain ⟨_, _, _, _, _, _, hslen, _⟩ := simStep_ok_facts hs
      rw [ih h, hslen]

/-- Indices not yet visited are untouched by the remaining iterations. -/
theorem simRun_ok_frozen {d : TGame → DecideRes} {k : Nat}
    {st st' : List TGame} (h : simRun d k st = .ok st') :
    ∀ q, k ≤ q → st'[q]? = st[q]? := by
  induction k generalizing st with
  | zero =>
    simp only [simRun, Except.ok.injEq] at h
    rw [h]
    intro q _
    rfl
  | succ n ih =>
    intro q hq
    rw [simRun] at h
    cases hs : simStep d st n with
    | error e =>
      rw [hs] at h
      simp at h
    | ok st1 =>
      rw [hs] at h
      simp only [ebind_ok] at h
      obtain ⟨_, _, _, _, _, _, _, _, hframe, _⟩ := simStep_ok_facts hs
      rw [ih h q (by omega),
        hframe q (by omega) (fun hc => by have := parentIdx_lt hc; omega)]

/-- A slot that is the parent of no visited index keeps its opponents
list (its winner/loser may still be filled in when it is visited). -/
theorem simRun_ok_opponents_frozen {d : TGame → DecideRes} {k : Nat}
    {st st' : List TGame} (h : simRun d k st = .ok st') :
    ∀ q, (∀ j, j < k → parentIdx j ≠ some q) →
      (st'[q]?).map TGame.opponents = (st[q]?).map TGame.opponents := by
  induction k generalizing st with
  | zero =>
    simp only [simRun, Except.ok.injEq] at h
    rw [h]
    intro q _
    rfl
  | succ n ih =>
    intro q hq
    rw [simRun] at h
    cases hs : simStep d st n with
    | error e =>
      rw [hs] at h
      simp at h
    | ok st1 =>
      rw [hs] at h
      simp only [ebind_ok] at h
      obtain ⟨_, _, _, _, _, _, _, _, _, hopp, _⟩ := simStep_ok_facts hs
      rw [ih h q (fun j hj => hq j (by omega)), hopp q (hq n (by omega))]

/-- Peeling the first iterations off a successful run: there is an
intermediate state from which the run continues, and any slot that none
of the peeled iterations visits or appends to is still intact in it. -/
theorem simRun_ok_decompose {d : TGame → DecideRes} :
    ∀ (K : Nat) (st st' : List TGame), simRun d K st = .ok st' →
      ∀ M, M ≤ K →
      ∃ stm, simRun d M stm = .ok st' ∧ stm.length = st.length ∧
        (∀ q, (∀ j, M ≤ j → j < K → j ≠ q ∧ parentIdx j ≠ some q) →
          stm[q]? = st[q]?) := by
  intro K
  induction K with
  | zero =>
    intro st st' h M hM
    have : M = 0 := by omega
    subst this
    exact ⟨st, h, rfl, fun q _ => rfl⟩
  | succ n ih =>
    intro st st' h M hM
    by_cases hMn : M = n + 1
    · subst hMn
      exact ⟨st, h, rfl, fun q _ => rfl⟩
    · rw [simRun] at h
      cases hs : simStep d st n with
      | error e =>
        rw [hs] at h
        simp at h
      | ok st1 =>
        rw [hs] at h
        simp only [ebind_ok] at h
        obtain ⟨stm, h1, hlen1, hfr⟩ := ih st1 st' h M (by omega)
        obtain ⟨_, _, _, _, _, _, hslen, _, hframe, _, _⟩ :=
          simStep_ok_facts hs
        refine ⟨stm, h1, by rw [hlen1, hslen], ?_⟩
        intro q hcond
        have hn := hcond n (by omega) (by omega)
        rw [hfr q (fun j hj1 hj2 => hcond j hj1 (by omega)),
          hframe q (Ne.symm hn.1) hn.2]

/-- After a successful run every visited slot carries a winner and a
loser, and its opponents list (checked to have 2 entries when visited)
still has exactly 2 entries at the end. -/
theorem simRun_visited_done {d : TGame → DecideRes} {K : Nat}
    {st st' : List TGame} (h : simRun d K st = .ok st') (i : Nat)
    (hi : i < K) :
    ∃ g, st'[i]? = some g ∧ g.winner.isSome ∧ g.loser.isSome ∧
      g.opponents.length = 2 := by
  obtain ⟨stm, h1, hlenm, _⟩ := simRun_ok_decompose K st st' h (i + 1) (by omega)
  rw [simRun] at h1
  cases hs : simStep d stm i with
  | error e =>
    rw [hs] at h1
    simp at h1
  | ok st1 =>
    rw [hs] at h1
    simp only [ebind_ok] at h1
    obtain ⟨g, w, l, hg, h2, _, _, hset, _, _, _⟩ := simStep_ok_facts hs
    refine ⟨{ g with winner := some w, loser := some l }, ?_, by simp, by simp, by simpa using h2⟩
    rw [simRun_ok_frozen h1 i le_rfl, hset]

/-- C8: if `simulate` finishes without raising on a bracket whose
non-first-round games start with empty opponents lists, then every game
has both winner and loser set, the root's opponents list has length
exactly 2 (as has every other game's), and every internal game `p` ends
with opponents exactly `[winner of 2p+2, winner of 2p+1]` — each child's
winner was appended to its parent exactly once (the child at `2p+2`
first, matching the visiting order), and only after that child was
decided. -/
theorem c8_simulate_success_postcondition (d : TGame → DecideRes)
    (t t' : Tournament) (R : Nat) (hR : 1 ≤ R)
    (hlen : t.games.length = 2 ^ R - 1)
    (hseed : (t.games.take (2 ^ (R - 1) - 1)).all
      (fun g => g.opponents.isEmpty) = true)
    (hsim : t.simulate d = .ok t') :
    (t'.games.all (fun g => g.winner.isSome && g.loser.isSome) = true) ∧
    ((t'.games[0]?).map (fun g => g.opponents.length) = some 2) ∧
    (∀ p, 2 * p + 2 < t.games.length → ∃ w1 w2,
      (t'.games[p]?).map TGame.opponents = some [w2, w1] ∧
      (t'.games[2 * p + 2]?).map TGame.winner = some (some w2) ∧
      (t'.games[2 * p + 1]?).map TGame.winner = some (some w1)) := by
  unfold Tournament.simulate at hsim
  cases hrun : simRun d t.games.length t.games with
  | error e =>
    rw [hrun] at hsim
    simp at hsim
  | ok gs =>
    rw [hrun] at hsim
    simp only [ebind_ok, Except.ok.injEq] at hsim
    have hgs : t'.games = gs := by rw [← hsim]
    have hlen' : gs.length = t.games.length := simRun_ok_length hrun
    have hpos : 0 < t.games.length := by
      rw [hlen]
      have : (2 : Nat) ^ 1 ≤ 2 ^ R := Nat.pow_le_pow_right (by omega) hR
      omega
    refine ⟨?_, ?_, ?_⟩
    · rw [hgs, List.all_eq_true]
      intro x hx
      obtain ⟨i, hilt, hix⟩ := List.mem_iff_getElem.mp hx
      obtain ⟨g, hgget, hw, hl, _⟩ :=
        simRun_visited_done hrun i (by omega)
      rw [List.getElem?_eq_getElem hilt, hix] at hgget
      obtain rfl : x = g := by simpa using hgget
      simp [hw, hl]
    · obtain ⟨g, hgget, _, _, h2⟩ := simRun_visited_done hrun 0 hpos
      rw [hgs, hgget]
      simp [h2]
    · intro p hp
      -- the two children of p are visited before p; decompose the run
      -- just before the elder child's iteration
      obtain ⟨stm, h1, hlenm, hintact⟩ :=
        simRun_ok_decompose t.games.length t.games gs hrun (2 * p + 3)
          (by omega)
      -- p starts internal, hence with an empty opponents list
      have hplt : p < 2 ^ (R - 1) - 1 := by
        have h2R : 2 ^ R = 2 * 2 ^ (R - 1) := by
          conv_lhs => rw [show R = (R - 1) + 1 by omega]
          rw [pow_succ]
          ring
        omega
      have hppos : p < t.games.length := by omega
      have hgp : t.games[p]? = some t.games[p] := List.getElem?_eq_getElem hppos
      have hpempty : (t.games[p]).opponents = [] := by
        have hmem : t.games[p] ∈ t.games.take (2 ^ (R - 1) - 1) :=
          List.mem_iff_getElem?.mpr
            ⟨p, by rw [List.getElem?_take_of_lt hplt]; exact hgp⟩
        exact List.isEmpty_iff.mp (List.all_eq_true.mp hseed _ hmem)
      -- p's slot is still intact at the intermediate state
      have hpm : stm[p]? = t.games[p]? := by
        refine hintact p (fun j hj1 hj2 => ⟨by omega, fun hc => ?_⟩)
        rcases parentIdx_eq_some_iff.mp hc with h | h <;> omega
      -- elder child's iteration: appends w2 to p
      rw [show 2 * p + 3 = (2 * p + 2) + 1 from rfl, simRun] at h1
      cases hs2 : simStep d stm (2 * p + 2) with
      | error e =>
        rw [hs2] at h1
        simp at h1
      | ok st1 =>
        rw [hs2] at h1
        simp only [ebind_ok] at h1
        obtain ⟨g2, w2, l2, hg2, h22, hi2, hslen2, hset2, hframe2, hopp2,
          hpar2⟩ := simStep_ok_facts hs2
        have hpidx2 : parentIdx (2 * p + 2) = some p :=
          parentIdx_eq_some_iff.mpr (Or.inr rfl)
        have hst1p : st1[p]? =
            some { t.games[p] with opponents := (t.games[p]).opponents ++ [w2] } :=
          hpar2 p t.games[p] hpidx2 (hpm.trans hgp)
        -- younger child's iteration: appends w1 to p
        rw [show 2 * p + 2 = (2 * p + 1) + 1 from rfl, simRun] at h1
        cases hs1 : simStep d st1 (2 * p + 1) with
        | error e =>
          rw [hs1] at h1
          simp at h1
        | ok st2 =>
          rw [hs1] at h1
          simp only [ebind_ok] at h1
          obtain ⟨g1, w1, l1, hg1, h21, hi1, hslen1, hset1, hframe1, hopp1,
            hpar1⟩ := simStep_ok_facts hs1
          have hpidx1 : parentIdx (2 * p + 1) = some p :=
            parentIdx_eq_some_iff.mpr (Or.inl rfl)
          have hst2p : st2[p]? =
              some { t.games[p] with
                opponents := ((t.games[p]).opponents ++ [w2]) ++ [w1] } :=
            hpar1 p _ hpidx1 hst1p
          refine ⟨w1, w2, ?_, ?_, ?_⟩
          · rw [hgs,
              simRun_ok_opponents_frozen h1 p (fun j hj hc => by
                rcases parentIdx_eq_some_iff.mp hc with h | h <;> omega),
              hst2p, hpempty]
            simp
          · rw [hgs, simRun_ok_frozen h1 (2 * p + 2) (by omega),
              hframe1 (2 * p + 2) (by omega)
                (by rw [hpidx1]; intro hc; simp at hc; omega),
              hset2]
            simp
          · rw [hgs, simRun_ok_frozen h1 (2 * p + 1) le_rfl, hset1]
            simp

/-- C8, witness: a seeded 2-round bracket simulated with the
always-pick-`opponents[0]` decider ends with the root holding exactly 2
opponents. -/
theorem c8_witness :
    ((tSeed2Done.games[0]?).map (fun g => g.opponents.length)) = some 2 :=
  (c8_simulate_success_postcondition (fun _ => DecideRes.int 0) tSeed2
    tSeed2Done 2 (by omega) (by decide) (by decide) (by decide)).2.1

/-! ## C7 — `simulate` on an already decided bracket -/

/-- The always-pick-`opponents[0]` decider normalizes successfully on any
game with 2 opponents. -/
theorem interpretDecide_int_zero (g : TGame)
    (h2 : g.opponents.length = 2) :
    ∃ w l, interpretDecide (DecideRes.int 0) g = .ok (w, l) := by
  rcases hops : g.opponents with _ | ⟨a, _ | ⟨b, rest⟩⟩ <;>
    rw [hops] at h2 <;> try simp at h2
  obtain rfl : rest = [] := by simpa using h2
  refine ⟨a, b, ?_⟩
  have h0 : pyGet g.opponents 0 = .ok a := pyGet_zero (by rw [hops]; rfl)
  have h1 : pyGet g.opponents 1 = .ok b := pyGet_one (by rw [hops]; rfl)
  simp [interpretDecide, h0, show ((0 : Int) + 1) % 2 = 1 by decide, h1]

/-- Running the loop over a bracket whose games all (still) have 2
opponents: the leaves are re-decided and re-append their winners, so by
the time the last non-leaf game (heap index `2^(R-1) − 2`, the parent of
the last two leaves) is visited its opponents list has grown to 4, and
the guard `IndexError` fires there.  Stated as a downward invariant over
the remaining leaf iterations. -/
theorem simRun_second_pass_err {d : TGame → DecideRes}
    (hDec : ∀ g : TGame, g.opponents.length = 2 →
      ∃ w l, interpretDecide (d g) g = .ok (w, l))
    (R : Nat) (hR : 2 ≤ R) :
    ∀ m, m ≤ 2 ^ (R - 1) → ∀ u : List TGame, u.length = 2 ^ R - 1 →
      (∀ j, 2 ^ (R - 1) - 1 ≤ j → j < 2 ^ (R - 1) - 1 + m →
        ∀ g, u[j]? = some g → g.opponents.length = 2) →
      (∀ g, u[2 ^ (R - 1) - 2]? = some g →
        g.opponents.length =
          2 + min 2 (2 ^ R - 1 - (2 ^ (R - 1) - 1 + m))) →
      simRun d (2 ^ (R - 1) - 1 + m) u =
        .error (.badOpponents (2 ^ (R - 1) - 2)) := by
  have h2R : 2 ^ R = 2 * 2 ^ (R - 1) := by
    conv_lhs => rw [show R = (R - 1) + 1 by omega]
    rw [pow_succ]
    ring
  have hRm : 2 ≤ 2 ^ (R - 1) := by
    calc 2 = 2 ^ 1 := by norm_num
    _ ≤ 2 ^ (R - 1) := Nat.pow_le_pow_right (by omega) (by omega)
  intro m
  induction m with
  | zero =>
    intro _ u hlen h3 h4
    have htlt : 2 ^ (R - 1) - 2 < u.length := by omega
    have hg : u[2 ^ (R - 1) - 2]? = some u[2 ^ (R - 1) - 2] :=
      List.getElem?_eq_getElem htlt
    have hlen4 : (u[2 ^ (R - 1) - 2]).opponents.length = 4 := by
      have := h4 _ hg
      omega
    rw [show 2 ^ (R - 1) - 1 + 0 = (2 ^ (R - 1) - 2) + 1 by omega, simRun,
      simStep_guard_err hg (by omega)]
    rfl
  | succ m ih =>
    intro hm u hlen h3 h4
    have hjlt : 2 ^ (R - 1) - 1 + m < u.length := by omega
    have hg : u[2 ^ (R - 1) - 1 + m]? = some u[2 ^ (R - 1) - 1 + m] :=
      List.getElem?_eq_getElem hjlt
    have h2 : (u[2 ^ (R - 1) - 1 + m]).opponents.length = 2 :=
      h3 _ (by omega) (by omega) _ hg
    obtain ⟨w, l, hi⟩ := hDec _ h2
    have hpj : parentIdx (2 ^ (R - 1) - 1 + m) =
        some ((2 ^ (R - 1) - 1 + m + 1) / 2 - 1) := by
      unfold parentIdx
      rw [if_neg (by omega)]
    have hpjlt : (2 ^ (R - 1) - 1 + m + 1) / 2 - 1 < 2 ^ (R - 1) - 1 := by
      omega
    have hpjlen : (2 ^ (R - 1) - 1 + m + 1) / 2 - 1 < u.length := by omega
    have hpg : u[(2 ^ (R - 1) - 1 + m + 1) / 2 - 1]? =
        some u[(2 ^ (R - 1) - 1 + m + 1) / 2 - 1] :=
      List.getElem?_eq_getElem hpjlen
    rw [show 2 ^ (R - 1) - 1 + (m + 1) = (2 ^ (R - 1) - 1 + m) + 1 by omega,
      simRun, simStep_ok_child hg h2 hi hpj hpg, ebind_ok]
    apply ih (by omega) _ (by simp [hlen])
    · intro j hj1 hj2 g hgj
      rw [List.getElem?_set_ne (by omega), List.getElem?_set_ne (by omega)]
        at hgj
      exact h3 j hj1 (by omega) g hgj
    · intro g hgt
      by_cases hpar : (2 ^ (R - 1) - 1 + m + 1) / 2 - 1 = 2 ^ (R - 1) - 2
      · rw [← hpar] at hgt
        rw [List.getElem?_set_self (by simpa using hpjlen)] at hgt
        obtain rfl := Option.some_inj.mp hgt
        have hold := h4 _ (by rw [← hpar]; exact hpg)
        simp only [List.length_append, List.length_cons, List.length_nil]
        omega
      · rw [List.getElem?_set_ne (by omega),
          List.getElem?_set_ne (by omega)] at hgt
        have hold := h4 _ hgt
        omega

/-- C7, counterexample: re-running `simulate` on the already fully
decided 3-round bracket `tFull3` raises the opponents-count failure at
heap index 2 — the last non-leaf game — not at the root (index 0) as the
claim states. -/
theorem c7_counterexample :
    tFull3.simulate (fun _ => DecideRes.int 0) =
      .error (.badOpponents 2) ∧ (2 : Nat) ≠ 0 := by decide

/-- C7, amended: calling `simulate` again on a fully decided bracket
with R ≥ 2 rounds (every game still holding exactly 2 opponents, the
decision function normalizing fine on any 2-opponent game) raises the
opponents-count precondition failure at heap index `2^(R-1) − 2`, the
highest-indexed non-leaf game — which is the root only when R = 2. -/
theorem c7_amended_double_simulate (d : TGame → DecideRes)
    (t : Tournament) (R : Nat) (hR : 2 ≤ R)
    (hlen : t.games.length = 2 ^ R - 1)
    (hopp : t.games.all (fun g => g.opponents.length == 2) = true)
    (hDec : ∀ g : TGame, g.opponents.length = 2 →
      ∃ w l, interpretDecide (d g) g = .ok (w, l)) :
    t.simulate d = .error (.badOpponents (2 ^ (R - 1) - 2)) := by
  have h2R : 2 ^ R = 2 * 2 ^ (R - 1) := by
    conv_lhs => rw [show R = (R - 1) + 1 by omega]
    rw [pow_succ]
    ring
  have hRm : 2 ≤ 2 ^ (R - 1) := by
    calc 2 = 2 ^ 1 := by norm_num
    _ ≤ 2 ^ (R - 1) := Nat.pow_le_pow_right (by omega) (by omega)
  have hall : ∀ (j : Nat) (g : TGame), t.games[j]? = some g →
      g.opponents.length = 2 := by
    intro j g hgj
    have hmem : g ∈ t.games := List.getElem?_mem hgj
    have := List.all_eq_true.mp hopp g hmem
    simpa using this
  have herr : simRun d (2 ^ (R - 1) - 1 + 2 ^ (R - 1)) t.games =
      .error (.badOpponents (2 ^ (R - 1) - 2)) := by
    apply simRun_second_pass_err hDec R hR (2 ^ (R - 1)) le_rfl t.games hlen
    · intro j _ _ g hgj
      exact hall j g hgj
    · intro g hgt
      have := hall _ g hgt
      omega
  have hcount : t.games.length = 2 ^ (R - 1) - 1 + 2 ^ (R - 1) := by omega
  unfold Tournament.simulate
  rw [hcount, herr]
  rfl

/-- C7, witness: the amended statement at the concrete decided 3-round
bracket: the failure is raised at index `2^(3-1) − 2 = 2`. -/
theorem c7_witness :
    tFull3.simulate (fun _ => DecideRes.int 0) =
      .error (.badOpponents (2 ^ (3 - 1) - 2)) :=
  c7_amended_double_simulate (fun _ => DecideRes.int 0) tFull3 3
    (by omega) (by decide) (by decide)
    (fun g h2 => interpretDecide_int_zero g h2)

/-! ## C5 — `correct` -/

/-- What the `accurate` flag of slot `j` is set to by `correct` when the
real bracket's slot is `rg` and ours is `g`. -/
theorem correctFrom_spec (real : List TGame) :
    ∀ (n i : Nat) (st : List TGame), real.length - i = n →
      real.length ≤ st.length →
      (correctFrom real st i).2 = none ∧
      (correctFrom real st i).1.length = st.length ∧
      (∀ j, j < i → (correctFrom real st i).1[j]? = st[j]?) ∧
      (∀ j, real.length ≤ j → (correctFrom real st i).1[j]? = st[j]?) ∧
      (∀ j g rg, i ≤ j → st[j]? = some g → real[j]? = some rg →
        (correctFrom real st i).1[j]? = some { g with accurate :=
          (if rg.winner = none then none
           else some (decide (rg.winner = g.winner))) }) := by
  intro n
  induction n with
  | zero =>
    intro i st hn hlen
    have hz : correctFrom real st i = (st, none) := by
      rw [correctFrom, hn, correctLoop]
    rw [hz]
    refine ⟨rfl, rfl, fun j _ => rfl, fun j _ => rfl, ?_⟩
    intro j g rg hij _ hrg
    have : j < real.length := by
      by_contra hc
      rw [List.getElem?_eq_none (by omega)] at hrg
      simp at hrg
    omega
  | succ n ih =>
    intro i st hn hlen
    have hi : i < real.length := by omega
    have hist : i < st.length := by omega
    have hsg : st.get? i = some st[i] := by
      rw [List.get?_eq_getElem?]
      exact List.getElem?_eq_getElem hist
    rw [correctFrom, hn, correctLoop, dif_pos hi, hsg]
    dsimp only
    set st1 := st.set i { st[i] with accurate :=
      (if (real.get ⟨i, hi⟩).winner = none then none
       else some (decide ((real.get ⟨i, hi⟩).winner = (st[i]).winner))) }
      with hst1
    have hlen1 : real.length ≤ st1.length := by
      rw [hst1]
      simpa using hlen
    have hrw : correctLoop real n (i + 1) st1 = correctFrom real st1 (i + 1) := by
      rw [correctFrom, show real.length - (i + 1) = n by omega]
    rw [hrw]
    obtain ⟨he, hl, hlt, hhigh, hmain⟩ := ih (i + 1) st1 (by omega) hlen1
    refine ⟨he, by rw [hl, hst1]; simp, ?_, ?_, ?_⟩
    · intro j hj
      rw [hlt j (by omega), hst1, List.getElem?_set_ne (by omega)]
    · intro j hj
      rw [hhigh j hj, hst1, List.getElem?_set_ne (by omega)]
    · intro j g rg hij hg hrg
      by_cases hji : j = i
      · subst hji
        rw [hlt j (by omega), hst1,
          List.getElem?_set_self hist]
        have hgg : g = st[j] := by
          rw [List.getElem?_eq_getElem hist] at hg
          simpa using hg.symm
        have hrr : rg = real.get ⟨j, hi⟩ := by
          rw [← List.get?_eq_getElem?, List.get?_eq_get hi] at hrg
          simpa using hrg.symm
        rw [hgg, hrr]
      · have hg1 : st1[j]? = some g := by
          rw [hst1, List.getElem?_set_ne (by omega)]
          exact hg
        exact hmain j g rg (by omega) hg1 hrg

/-- C5: `correct(bracket, real)` raises nothing as long as the real
bracket is not longer than ours (in particular an unset real winner is
not an error), and sets `accurate` of slot `j` to `None` when the real
winner is absent, else to the truth value of
`real.games[j].winner == bracket.games[j].winner`; nothing else in the
slot changes. -/
theorem c5_correct_spec (t real : Tournament)
    (hlen : real.games.length ≤ t.games.length) :
    (t.correct real).2 = none ∧
    (∀ (j : Nat) (g rg : TGame), t.games[j]? = some g →
      real.games[j]? = some rg →
      (t.correct real).1.games[j]? = some { g with accurate :=
        (if rg.winner = none then none
         else some (decide (rg.winner = g.winner))) }) := by
  obtain ⟨he, _, _, _, hmain⟩ :=
    correctFrom_spec real.games (real.games.length - 0) 0 t.games rfl hlen
  rcases hcf : correctFrom real.games t.games 0 with ⟨gs, e⟩
  rw [hcf] at he hmain
  refine ⟨?_, ?_⟩
  · simp [Tournament.correct, hcf, he]
  · intro j g rg hg hrg
    have := hmain j g rg (by omega) hg hrg
    simpa [Tournament.correct, hcf] using this

/-- C5, witness: correcting the concrete simulated bracket against the
matching real bracket raises nothing. -/
theorem c5_witness : (tScoreSim.correct tScoreReal).2 = none :=
  (c5_correct_spec tScoreSim tScoreReal (by decide)).1

/-! ## Dict-model lemmas -/

theorem find?_update_map_ne {k k' : String} {v : Int} (hne : k' ≠ k) :
    ∀ m : List (String × Int),
      (m.map (fun p => if p.1 == k then (k, v) else p)).find?
        (fun p => p.1 == k') = m.find? (fun p => p.1 == k') := by
  intro m
  induction m with
  | nil => rfl
  | cons a tl ih =>
    by_cases hak : a.1 = k
    · have hfa : (fun p : String × Int => if (p.1 == k) = true then (k, v) else p) a = (k, v) := by
        simp [hak]
      simp only [List.map_cons, hfa]
      rw [List.find?_cons_of_neg _ (by simp only [beq_iff_eq]; exact Ne.symm hne),
        List.find?_cons_of_neg _ (by simp only [beq_iff_eq, hak]; exact Ne.symm hne), ih]
    · have hfa : (fun p : String × Int => if (p.1 == k) = true then (k, v) else p) a = a := by
        simp [hak]
      simp only [List.map_cons, hfa]
      by_cases hak' : a.1 = k'
      · rw [List.find?_cons_of_pos _ (by simp [hak']),
          List.find?_cons_of_pos _ (by simp [hak'])]
      · rw [List.find?_cons_of_neg _ (by simp [hak']),
          List.find?_cons_of_neg _ (by simp [hak']), ih]

theorem find?_update_map_eq {k : String} {v : Int} :
    ∀ m : List (String × Int), m.any (fun p => p.1 == k) = true →
      (m.map (fun p => if p.1 == k then (k, v) else p)).find?
        (fun p => p.1 == k) = some (k, v) := by
  intro m
  induction m with
  | nil => simp
  | cons a tl ih =>
    intro hany
    by_cases hak : a.1 = k
    · have hfa : (fun p : String × Int => if (p.1 == k) = true then (k, v) else p) a = (k, v) := by
        simp [hak]
      simp only [List.map_cons, hfa]
      rw [List.find?_cons_of_pos _ (by simp)]
    · have hfa : (fun p : String × Int => if (p.1 == k) = true then (k, v) else p) a = a := by
        simp [hak]
      simp only [List.map_cons, hfa]
      rw [List.find?_cons_of_neg _ (by simp [hak])]
      apply ih
      simp only [List.any_cons, Bool.or_eq_true] at hany
      rcases hany with h | h
      · exact absurd h (by simp [hak])
      · exact h

theorem find?_append_single_ne {k k' : String} {v : Int} (hne : k' ≠ k) :
    ∀ m : List (String × Int),
      (m ++ [(k, v)]).find? (fun p => p.1 == k') =
        m.find? (fun p => p.1 == k') := by
  intro m
  induction m with
  | nil => simp [Ne.symm hne]
  | cons a tl ih =>
    by_cases hak' : a.1 = k'
    · rw [List.cons_append, List.find?_cons_of_pos _ (by simp [hak']),
        List.find?_cons_of_pos _ (by simp [hak'])]
    · rw [List.cons_append, List.find?_cons_of_neg _ (by simp [hak']),
        List.find?_cons_of_neg _ (by simp [hak']), ih]

theorem find?_append_single_eq {k : String} {v : Int} :
    ∀ m : List (String × Int), m.any (fun p => p.1 == k) = false →
      (m ++ [(k, v)]).find? (fun p => p.1 == k) = some (k, v) := by
  intro m
  induction m with
  | nil => simp
  | cons a tl ih =>
    intro hany
    simp only [List.any_cons, Bool.or_eq_false_iff] at hany
    rw [List.cons_append, List.find?_cons_of_neg _ (by simp [hany.1]), ih hany.2]

/-- `m[k] = v` makes `k` map to `v`. -/
theorem dictGet_update_self (m : List (String × Int)) (k : String)
    (v : Int) : dictGet (dictUpdate m k v) k = some v := by
  unfold dictUpdate dictGet
  by_cases hany : m.any (fun p => p.1 == k) = true
  · rw [if_pos hany, find?_update_map_eq m hany]
    rfl
  · rw [if_neg hany,
      find?_append_single_eq m (by
        cases h : m.any (fun p => p.1 == k)
        · rfl
        · exact absurd h hany)]
    rfl

/-- `m[k] = v` leaves every other key alone. -/
theorem dictGet_update_ne (m : List (String × Int)) {k k' : String}
    (v : Int) (hne : k' ≠ k) :
    dictGet (dictUpdate m k v) k' = dictGet m k' := by
  unfold dictUpdate dictGet
  by_cases hany : m.any (fun p => p.1 == k) = true
  · rw [if_pos hany, find?_update_map_ne hne m]
  · rw [if_neg hany, find?_append_single_ne hne m]

/-- Folding updates: a key that is not supplied keeps its old value. -/
theorem dictGet_foldl_not_mem :
    ∀ (xs : List (String × Int)) (init : List (String × Int))
      (k : String), k ∉ xs.map Prod.fst →
      dictGet (xs.foldl (fun m p => dictUpdate m p.1 p.2) init) k =
        dictGet init k := by
  intro xs
  induction xs with
  | nil => intro init k _; rfl
  | cons a tl ih =>
    intro init k hk
    simp only [List.map_cons, List.mem_cons] at hk
    push_neg at hk
    simp only [List.foldl_cons]
    rw [ih _ k hk.2, dictGet_update_ne _ _ hk.1]

/-- Folding updates for distinct keys: a supplied key gets its supplied
value. -/
theorem dictGet_foldl_mem :
    ∀ (xs : List (String × Int)) (init : List (String × Int))
      (k : String) (v : Int), (xs.map Prod.fst).Nodup → (k, v) ∈ xs →
      dictGet (xs.foldl (fun m p => dictUpdate m p.1 p.2) init) k = some v := by
  intro xs
  induction xs with
  | nil => simp
  | cons a tl ih =>
    intro init k v hnd hmem
    rcases a with ⟨k1, v1⟩
    simp only [List.foldl_cons]
    rcases List.mem_cons.mp hmem with heq | hmem'
    · obtain ⟨rfl, rfl⟩ : k = k1 ∧ v = v1 := by simpa using heq
      rw [dictGet_foldl_not_mem tl _ k
          (by simpa using (List.nodup_cons.mp hnd).1),
        dictGet_update_self]
    · exact ih _ k v (List.nodup_cons.mp hnd).2 hmem'

/-! ## `score`'s pointsmap-argument handling -/

/-- With only known round labels the dict branch merges everything and
raises nothing. -/
theorem mergeDict_ok (rounds : List String) :
    ∀ (xs pm : List (String × Int)), (∀ p ∈ xs, p.1 ∈ rounds) →
      mergeDict rounds pm xs =
        (xs.foldl (fun m p => dictUpdate m p.1 p.2) pm, none) := by
  intro xs
  induction xs with
  | nil =>
    intro pm _
    rfl
  | cons a tl ih =>
    intro pm hk
    rcases a with ⟨k, v⟩
    have hkr : k ∈ rounds := hk (k, v) (List.mem_cons_self _ _)
    rw [mergeDict, if_pos hkr, List.foldl_cons,
      ih _ (fun p hp => hk p (List.mem_cons_of_mem _ hp))]

/-- An unknown round label makes the dict branch raise `NameError`. -/
theorem mergeDict_bad (rounds : List String) :
    ∀ (xs pm : List (String × Int)), (∃ p ∈ xs, p.1 ∉ rounds) →
      (mergeDict rounds pm xs).2 = some .nameError := by
  intro xs
  induction xs with
  | nil =>
    intro pm hbad
    simp at hbad
  | cons a tl ih =>
    intro pm hbad
    rcases a with ⟨k, v⟩
    by_cases hk : k ∈ rounds
    · rw [mergeDict, if_pos hk]
      apply ih
      rcases hbad with ⟨p, hp, hnp⟩
      rcases List.mem_cons.mp hp with rfl | hp'
      · exact absurd hk hnp
      · exact ⟨p, hp', hnp⟩
    · rw [mergeDict, if_neg hk]

/-- C4: a dict pointsmap containing a key that is not a round label makes
`score` raise `NameError`, before any correction (the games — hence all
`accurate` flags — are untouched) and before any summation (`points` is
untouched). -/
theorem c4_unknown_round_rejected (t real : Tournament)
    (pm : List (String × Int)) (hbad : ∃ p ∈ pm, p.1 ∉ t.rounds) :
    (t.score real (.dict pm)).2 = .error .nameError ∧
    (t.score real (.dict pm)).1.games = t.games ∧
    (t.score real (.dict pm)).1.points = t.points := by
  have hb := mergeDict_bad t.rounds pm t.pointsmap hbad
  rcases hmd : mergeDict t.rounds t.pointsmap pm with ⟨pm', e⟩
  rw [hmd] at hb
  simp only at hb
  subst hb
  refine ⟨?_, ?_, ?_⟩ <;> simp [Tournament.score, hmd]

/-- C4, witness: the concrete bracket rejects `{oops: 5}`. -/
theorem c4_witness :
    (tScoreSim.score tScoreReal (.dict [("oops", 5)])).2 =
      .error .nameError :=
  (c4_unknown_round_rejected tScoreSim tScoreReal [("oops", 5)]
    (by decide)).1

/-- `correct`'s loop can only raise a (plain) `IndexError`. -/
theorem correctLoop_no_nameError (real : List TGame) :
    ∀ (n i : Nat) (st : List TGame),
      (correctLoop real n i st).2 ≠ some .nameError := by
  intro n
  induction n with
  | zero =>
    intro i st
    simp [correctLoop]
  | succ n ih =>
    intro i st
    rw [correctLoop]
    by_cases hi : i < real.length
    · rw [dif_pos hi]
      cases hg : st.get? i with
      | none => simp
      | some sg => exact ih (i + 1) _
    · rw [dif_neg hi]
      simp

theorem correctFrom_no_nameError (real : List TGame) :
    ∀ (n i : Nat) (st : List TGame), real.length - i = n →
      (correctFrom real st i).2 ≠ some .nameError := by
  intro n i st _
  rw [correctFrom]
  exact correctLoop_no_nameError real _ i st

/-- The summation loop can only raise `IndexError` or `KeyError`. -/
theorem sumPointsLoop_no_nameError (rounds : List String)
    (pm : List (String × Int)) :
    ∀ (gs : List TGame) (acc : Int),
      (sumPointsLoop rounds pm gs acc).2 ≠ some .nameError := by
  intro gs
  induction gs with
  | nil =>
    intro acc
    simp [sumPointsLoop]
  | cons g tl ih =>
    intro acc
    rw [sumPointsLoop]
    by_cases hacc : g.accurate = some true
    · rw [if_pos hacc]
      cases hr : pyGetNat rounds (log2 (g.index + 1)) with
      | error e =>
        have he : e = .indexError := by
          unfold pyGetNat at hr
          split at hr <;> simp_all
        dsimp only
        simp [he]
      | ok lbl =>
        dsimp only
        cases hd : dictGet pm lbl with
        | none =>
          dsimp only
          simp
        | some v =>
          dsimp only
          exact ih _
    · rw [if_neg hacc]
      exact ih _


/-- `scoreMain` (correction + summation) can never raise `NameError`. -/
theorem scoreMain_no_nameError (t real : Tournament) :
    (scoreMain t real).2 ≠ .error .nameError := by
  unfold scoreMain
  rcases hcf : correctFrom real.games t.games 0 with ⟨gs, e⟩
  cases e with
  | some err =>
    simp only
    intro hc
    simp only [Except.error.injEq] at hc
    subst hc
    exact correctFrom_no_nameError real.games (real.games.length - 0) 0
      t.games rfl (by rw [hcf])
  | none =>
    simp only
    rcases hsum : sumPointsLoop t.rounds t.pointsmap gs 0 with ⟨acc, e2⟩
    cases e2 with
    | some err =>
      simp only
      intro hc
      simp only [Except.error.injEq] at hc
      subst hc
      exact sumPointsLoop_no_nameError t.rounds t.pointsmap gs 0
        (by rw [hsum])
    | none => simp

/-- C3, counterexample: on the concrete 2-round bracket where all three
games are accurate, `score` with the dict `{r0: 100}` — whose keys are a
strict subset of the rounds `[r0, r1]` — returns 420, counting the two
accurate round-`r1` games at the stored 160 apiece, not the 100 the
claim predicts when only supplied rounds count; game 1's round `r1` is
missing from the dict, is accurate, and is counted. -/
theorem c3_counterexample :
    (tScoreSim.score tScoreReal (.dict [("r0", 100)])).2 = .ok 420 ∧
    ((tScoreSim.score tScoreReal
      (.dict [("r0", 100)])).1.games[1]?).map TGame.accurate =
        some (some true) ∧
    dictGet [("r0", (100 : Int))] "r1" = none ∧
    (420 : Int) ≠ 100 := by decide

/-- C3, amended: with a dict whose keys are all (a subset of the) round
labels, `score` raises no naming error and behaves exactly as scoring
with the merged pointsmap — supplied keys overridden, every round
missing from the dict still counted at its previously stored value. -/
theorem c3_amended_score_merged (t real : Tournament)
    (pm : List (String × Int)) (hkeys : ∀ p ∈ pm, p.1 ∈ t.rounds) :
    t.score real (.dict pm) =
      Tournament.score { t with pointsmap :=
        (pm.foldl (fun m p => dictUpdate m p.1 p.2) t.pointsmap) }
        real .noneV ∧
    (t.score real (.dict pm)).2 ≠ .error .nameError := by
  have hok := mergeDict_ok t.rounds pm t.pointsmap hkeys
  have heq : t.score real (.dict pm) =
      scoreMain { t with pointsmap :=
        (pm.foldl (fun m p => dictUpdate m p.1 p.2) t.pointsmap) } real := by
    simp [Tournament.score, hok]
  refine ⟨by rw [heq]; rfl, ?_⟩
  rw [heq]
  exact scoreMain_no_nameError _ real

/-- C3, witness: the amended no-naming-error fact at the concrete strict
subset dict `{r0: 100}`. -/
theorem c3_witness :
    (tScoreSim.score tScoreReal (.dict [("r0", 100)])).2 ≠
      .error .nameError :=
  (c3_amended_score_merged tScoreSim tScoreReal [("r0", 100)]
    (by decide)).2

/-! ## C10 — dict pointsmap merge mutates only supplied keys and persists -/

theorem c10_pointsmap_merge_persists (t real : Tournament)
    (pm : List (String × Int)) (total : Int)
    (hkeys : ∀ p ∈ pm, p.1 ∈ t.rounds)
    (hnd : (pm.map Prod.fst).Nodup)
    (hlen : real.games.length ≤ t.games.length)
    (hfst : (t.score real (.dict pm)).2 = .ok total) :
    (∀ k v, (k, v) ∈ pm →
      dictGet (t.score real (.dict pm)).1.pointsmap k = some v) ∧
    (∀ k, k ∉ pm.map Prod.fst →
      dictGet (t.score real (.dict pm)).1.pointsmap k =
        dictGet t.pointsmap k) ∧
    ((t.score real (.dict pm)).1.score real .noneV).2 = .ok total := by
  have hok := mergeDict_ok t.rounds pm t.pointsmap hkeys
  obtain ⟨M, hM⟩ : ∃ M, pm.foldl (fun m p => dictUpdate m p.1 p.2) t.pointsmap = M :=
    ⟨_, rfl⟩
  rw [hM] at hok
  have heq : t.score real (.dict pm) =
      scoreMain { t with pointsmap := M } real := by
    simp [Tournament.score, hok]
  obtain ⟨he, hl, hlt0, hhigh, hmain⟩ :=
    correctFrom_spec real.games (real.games.length - 0) 0 t.games rfl hlen
  rcases hcf : correctFrom real.games t.games 0 with ⟨gs, e⟩
  rw [hcf] at he hl hlt0 hhigh hmain
  simp only at he
  subst he
  simp only at hl hlt0 hhigh hmain
  have hcf1 : correctFrom real.games
      ({ t with pointsmap := M } : Tournament).games 0 = (gs, none) := hcf
  rcases hsum : sumPointsLoop t.rounds M gs 0 with ⟨acc, e2⟩
  cases e2 with
  | some err =>
    have hsm : scoreMain ({ t with pointsmap := M } : Tournament) real =
        ({ t with pointsmap := M, games := gs, points := some acc },
          .error err) := by
      unfold scoreMain
      rw [hcf1]
      dsimp only
      rw [hsum]
    rw [heq, hsm] at hfst
    simp at hfst
  | none =>
    have hsm : scoreMain ({ t with pointsmap := M } : Tournament) real =
        ({ t with pointsmap := M, games := gs, points := some acc },
          .ok acc) := by
      unfold scoreMain
      rw [hcf1]
      dsimp only
      rw [hsum]
    rw [heq, hsm] at hfst
    simp only [Except.ok.injEq] at hfst
    subst hfst
    rw [heq, hsm]
    refine ⟨?_, ?_, ?_⟩
    · intro k v hkv
      show dictGet M k = some v
      rw [← hM]
      exact dictGet_foldl_mem pm t.pointsmap k v hnd hkv
    · intro k hk
      show dictGet M k = dictGet t.pointsmap k
      rw [← hM]
      exact dictGet_foldl_not_mem pm t.pointsmap k hk
    · -- second scoring pass with pointsmap=None reuses the merged map
      have hgl : gs.length = t.games.length := hl
      obtain ⟨he2, hl2, hlt2, hhigh2, hmain2⟩ :=
        correctFrom_spec real.games (real.games.length - 0) 0 gs rfl
          (by omega)
      rcases hcf2 : correctFrom real.games gs 0 with ⟨gs2, e2⟩
      rw [hcf2] at he2 hl2 hlt2 hhigh2 hmain2
      simp only at he2
      subst he2
      simp only at hl2 hlt2 hhigh2 hmain2
      have hgs2 : gs2 = gs := by
        apply List.ext_getElem?
        intro j
        by_cases hjr : j < real.games.length
        · have hjt : j < t.games.length := by omega
          have hg : t.games[j]? = some t.games[j] :=
            List.getElem?_eq_getElem hjt
          have hrg : real.games[j]? = some real.games[j] :=
            List.getElem?_eq_getElem hjr
          have h1 := hmain j t.games[j] real.games[j] (by omega) hg hrg
          have h2 := hmain2 j _ real.games[j] (by omega) h1 hrg
          rw [h2, h1]
        · rw [hhigh2 j (by omega)]
      have hcf3 : correctFrom real.games
          ({ t with pointsmap := M, games := gs, points := some acc } :
            Tournament).games 0 = (gs, none) := by
        show correctFrom real.games gs 0 = (gs, none)
        rw [hcf2, hgs2]
      show (scoreMain _ real).2 = .ok acc
      unfold scoreMain
      rw [hcf3]
      dsimp only
      rw [show sumPointsLoop t.rounds M gs 0 = (acc, none) from hsum]

/-- C10, witness: on the concrete bracket, after scoring with
`{r0: 100}` (total 420), re-scoring with no pointsmap argument returns
420 again, from the persisted merged map. -/
theorem c10_witness :
    (((tScoreSim.score tScoreReal
        (.dict [("r0", 100)])).1.score tScoreReal .noneV).2) = .ok 420 :=
  (c10_pointsmap_merge_persists tScoreSim tScoreReal [("r0", 100)] 420
    (by decide) (by decide) (by decide) (by decide)).2.2

/-! ## C1 — amended round-trip: helper lemmas -/

theorem isPrefixL_single {c x : Char} {rest : List Char} :
    isPrefixL [c] (x :: rest) = (c == x) := by
  simp [isPrefixL]

theorem containsSubL_single_append (c : Char) :
    ∀ (xs ys : List Char), containsSubL [c] (xs ++ c :: ys) = true := by
  intro xs ys
  induction xs with
  | nil =>
    simp [containsSubL, isPrefixL_single]
  | cons x tl ih =>
    rw [List.cons_append, containsSubL]
    simp [ih]

theorem partitionBeforeL_single_append {c : Char} :
    ∀ (xs ys : List Char), containsSubL [c] xs = false →
      partitionBeforeL [c] (xs ++ c :: ys) = xs := by
  intro xs ys
  induction xs with
  | nil =>
    intro _
    rw [List.nil_append, partitionBeforeL, if_pos (by simp [isPrefixL_single])]
  | cons x tl ih =>
    intro hnc
    rw [containsSubL, Bool.or_eq_false_iff] at hnc
    rw [List.cons_append, partitionBeforeL,
      if_neg (by rw [isPrefixL_single] at hnc ⊢; simp [hnc.1]), ih hnc.2]

theorem pyJoin_pair (sep a b : String) : pyJoin sep [a, b] = a ++ sep ++ b := rfl

/-- `String.toList` distributes over append. -/
theorem toList_append (a b : String) : (a ++ b).toList = a.toList ++ b.toList := by
  rcases a with ⟨la⟩
  rcases b with ⟨lb⟩
  rfl

/-- The joined Final-Four label contains the (single-character) delimiter. -/
theorem pyIn_join {d : String} {c : Char} (hd : d.toList = [c])
    (a b : String) : pyIn d (a ++ d ++ b) = true := by
  unfold pyIn
  rw [toList_append, toList_append, hd, List.append_assoc,
    List.singleton_append]
  exact containsSubL_single_append c a.toList b.toList

/-- Partitioning the joined label at the delimiter recovers the first
region name, as long as that name does not itself contain the
delimiter. -/
theorem pyPartitionFst_join {d : String} {c : Char} (hd : d.toList = [c])
    (a b : String) (ha : pyIn d a = false) :
    pyPartitionFst (a ++ d ++ b) d = .ok a := by
  unfold pyPartitionFst
  rw [if_neg (by
    intro hc
    rw [hc] at hd
    simp at hd)]
  unfold pyIn at ha
  rw [hd] at ha
  rw [toList_append, toList_append, hd, List.append_assoc,
    List.singleton_append,
    partitionBeforeL_single_append a.toList b.toList ha]
  rcases a with ⟨la⟩
  rfl

/-- C1, amended: `index` is the exact left inverse of `lookup` for every
valid heap index, for brackets in the standard shape `index` hardcodes:
exactly 4 regions, distinct region labels none of which contains the
(single-character) delimiter, and distinct round labels. -/
theorem c1_amended_roundtrip (t : Tournament) (n : Nat)
    (hreg4 : t.regions.length = 4)
    (hregnd : t.regions.Nodup)
    (hrndnd : t.rounds.Nodup)
    (hdel1 : t.delim.length = 1)
    (hdelreg : ∀ r ∈ t.regions, pyIn t.delim r = false)
    (hn : n + 2 ≤ 2 ^ t.rounds.length) :
    roundTrip t n = .ok n := by
  have hc1 : t.delim.toList.length = 1 := hdel1
  obtain ⟨c, hc⟩ := List.length_eq_one.mp hc1
  have hR0 : t.rounds.length ≠ 0 := by
    intro h0
    rw [h0] at hn
    norm_num at hn
    omega
  have hn1 : n + 1 < 2 ^ t.rounds.length := by omega
  have hdR : log2 (n + 1) < t.rounds.length := by
    rw [log2_eq]
    exact (Nat.log2_lt (by omega)).mpr hn1
  have hlow : 2 ^ log2 (n + 1) ≤ n + 1 := by
    rw [log2_eq]
    exact Nat.log2_self_le (by omega)
  have hhigh : n + 1 < 2 ^ (log2 (n + 1) + 1) := by
    rw [log2_eq]
    exact Nat.lt_log2_self
  by_cases hd0 : log2 (n + 1) = 0
  · -- depth 0: the championship game, n = 0
    rw [hd0] at hhigh
    norm_num at hhigh
    obtain rfl : n = 0 := by omega
    have h0R : 0 < t.rounds.length := by omega
    have hlk : t.lookup 0 = .ok (t.rounds.get ⟨0, h0R⟩, none, none) := by
      unfold Tournament.lookup
      rw [if_neg (by rw [hreg4]; omega)]
      rw [show log2 (0 + 1) = 0 from rfl]
      rw [if_pos (by rw [hreg4]; decide)]
      rw [if_pos rfl]
      rw [pyGetNat_of_getElem?
        (List.getElem?_eq_getElem h0R : t.rounds[0]? = some (t.rounds.get ⟨0, h0R⟩))]
      rfl
    have hidx : t.index (.str (t.rounds.get ⟨0, h0R⟩)) .noneV none = .ok 0 := by
      unfold Tournament.index
      dsimp only
      rw [pyListIndex_nodup_get hrndnd 0 h0R]
      dsimp only [ebind_ok]
      rw [if_neg (by omega)]
      rw [if_pos (by decide)]
      rw [if_pos (by decide)]
    unfold roundTrip
    rw [hlk]
    dsimp only [ebind_ok]
    exact hidx
  · by_cases hd1 : log2 (n + 1) = 1
    · -- depth 1: the Final-Four row, n ∈ {1, 2}
      rw [hd1] at hhigh hlow
      norm_num at hhigh hlow
      have h1R : 1 < t.rounds.length := by omega
      obtain ⟨r0, r1, r2, r3, hregs⟩ :
          ∃ r0 r1 r2 r3, t.regions = [r0, r1, r2, r3] := by
        rcases hreg : t.regions with _ | ⟨a, _ | ⟨b, _ | ⟨x, _ | ⟨y, _ | ⟨z, l⟩⟩⟩⟩⟩
        · rw [hreg] at hreg4; simp at hreg4
        · rw [hreg] at hreg4; simp at hreg4
        · rw [hreg] at hreg4; simp at hreg4
        · rw [hreg] at hreg4; simp at hreg4
        · exact ⟨a, b, x, y, rfl⟩
        · rw [hreg] at hreg4; simp at hreg4
      have hnlb : 1 ≤ n := by omega
      have hnub : n ≤ 2 := by omega
      interval_cases n
      · -- n = 1: first two regions coincide
        have hlk : t.lookup 1 =
            .ok (t.rounds.get ⟨1, h1R⟩, some (r0 ++ t.delim ++ r1), none) := by
          unfold Tournament.lookup
          rw [if_neg (by rw [hreg4]; omega)]
          rw [show log2 (1 + 1) = 1 from rfl]
          rw [if_pos (by rw [hreg4]; decide)]
          rw [if_neg (by omega)]
          rw [if_pos (by omega)]
          rw [pyGetNat_of_getElem?
            (List.getElem?_eq_getElem h1R : t.rounds[1]? = some (t.rounds.get ⟨1, h1R⟩))]
          rw [hregs]
          rfl
        have hidx : t.index (.str (t.rounds.get ⟨1, h1R⟩))
            (.str (r0 ++ t.delim ++ r1)) none = .ok 1 := by
          unfold Tournament.index
          dsimp only
          rw [pyIn_join hc r0 r1]
          rw [if_pos rfl]
          rw [pyPartitionFst_join hc r0 r1
            (hdelreg r0 (by rw [hregs]; simp))]
          dsimp only [ebind_ok]
          rw [show pyListIndex t.regions r0 = .ok 0 by
            have h4 : 0 < t.regions.length := by omega
            have := pyListIndex_nodup_get hregnd 0 h4
            rw [show t.regions.get ⟨0, h4⟩ = r0 by rw [List.get_eq_getElem]; simp [hregs]] at this
            exact this]
          dsimp only [ebind_ok]
          rw [pyListIndex_nodup_get hrndnd 1 h1R]
          dsimp only [ebind_ok]
          rw [if_neg (by omega)]
          rw [if_pos (by decide)]
          rw [if_neg (by omega)]
          rfl
        unfold roundTrip
        rw [hlk]
        dsimp only [ebind_ok]
        exact hidx
      · -- n = 2: last two regions coincide
        have hlk : t.lookup 2 =
            .ok (t.rounds.get ⟨1, h1R⟩, some (r2 ++ t.delim ++ r3), none) := by
          unfold Tournament.lookup
          rw [if_neg (by rw [hreg4]; omega)]
          rw [show log2 (2 + 1) = 1 from rfl]
          rw [if_pos (by rw [hreg4]; decide)]
          rw [if_neg (by omega)]
          rw [if_neg (by omega)]
          rw [pyGetNat_of_getElem?
            (List.getElem?_eq_getElem h1R : t.rounds[1]? = some (t.rounds.get ⟨1, h1R⟩))]
          rw [hregs]
          rfl
        have hidx : t.index (.str (t.rounds.get ⟨1, h1R⟩))
            (.str (r2 ++ t.delim ++ r3)) none = .ok 2 := by
          unfold Tournament.index
          dsimp only
          rw [pyIn_join hc r2 r3]
          rw [if_pos rfl]
          rw [pyPartitionFst_join hc r2 r3
            (hdelreg r2 (by rw [hregs]; simp))]
          dsimp only [ebind_ok]
          rw [show pyListIndex t.regions r2 = .ok 2 by
            have h4 : 2 < t.regions.length := by omega
            have := pyListIndex_nodup_get hregnd 2 h4
            rw [show t.regions.get ⟨2, h4⟩ = r2 by rw [List.get_eq_getElem]; simp [hregs]] at this
            exact this]
          dsimp only [ebind_ok]
          rw [pyListIndex_nodup_get hrndnd 1 h1R]
          dsimp only [ebind_ok]
          rw [if_neg (by omega)]
          rw [if_pos (by decide)]
          rw [if_neg (by omega)]
          rfl
        unfold roundTrip
        rw [hlk]
        dsimp only [ebind_ok]
        exact hidx
    · -- depth ≥ 2: the regular rows
      have hd2 : 2 ≤ log2 (n + 1) := by omega
      have hgs : (1 <<< log2 (n + 1)) / t.regions.length =
          2 ^ (log2 (n + 1) - 2) := by
        rw [Nat.one_shiftLeft, hreg4, show (4 : Nat) = 2 ^ 2 from rfl,
          Nat.pow_div hd2 (by omega)]
      have hgs4 : 2 ^ log2 (n + 1) / 4 = 2 ^ (log2 (n + 1) - 2) := by
        rw [show (4 : Nat) = 2 ^ 2 from rfl, Nat.pow_div hd2 (by omega)]
      have hgsne : 2 ^ (log2 (n + 1) - 2) ≠ 0 := by positivity
      have hklt : n + 1 - 2 ^ log2 (n + 1) < 2 ^ log2 (n + 1) := by
        have : 2 ^ (log2 (n + 1) + 1) = 2 * 2 ^ log2 (n + 1) := by ring
        omega
      have hrid4 : (n + 1 - 2 ^ log2 (n + 1)) / 2 ^ (log2 (n + 1) - 2) < 4 := by
        rw [Nat.div_lt_iff_lt_mul (by omega)]
        have h22 : 2 ^ log2 (n + 1) = 2 ^ (log2 (n + 1) - 2) * 4 := by
          rw [show (4 : Nat) = 2 ^ 2 from rfl, ← pow_add]
          congr 1
          omega
        omega
      have hrid4' : (n + 1 - 2 ^ log2 (n + 1)) / 2 ^ (log2 (n + 1) - 2) <
          t.regions.length := hreg4 ▸ hrid4
      have hlk : t.lookup n = .ok
          (t.rounds.get ⟨log2 (n + 1), hdR⟩,
           some (t.regions.get
             ⟨(n + 1 - 2 ^ log2 (n + 1)) / 2 ^ (log2 (n + 1) - 2), hrid4'⟩),
           some ((n + 1 - 2 ^ log2 (n + 1)) % 2 ^ (log2 (n + 1) - 2))) := by
        unfold Tournament.lookup
        rw [if_neg (by rw [hreg4]; omega)]
        rw [hgs]
        rw [if_neg hgsne]
        rw [Nat.one_shiftLeft]
        rw [pyGetNat_of_getElem? (List.getElem?_eq_getElem hdR :
          t.rounds[log2 (n + 1)]? = some (t.rounds.get ⟨log2 (n + 1), hdR⟩))]
        dsimp only [ebind_ok]
        rw [pyGetNat_of_getElem? (List.getElem?_eq_getElem hrid4' :
          t.regions[(n + 1 - 2 ^ log2 (n + 1)) / 2 ^ (log2 (n + 1) - 2)]? =
            some (t.regions.get ⟨_, hrid4'⟩))]
        rfl
      have hidx : t.index (.str (t.rounds.get ⟨log2 (n + 1), hdR⟩))
          (.str (t.regions.get ⟨_, hrid4'⟩))
          (some ((n + 1 - 2 ^ log2 (n + 1)) % 2 ^ (log2 (n + 1) - 2) : Nat)) =
          .ok n := by
        unfold Tournament.index
        dsimp only
        rw [hdelreg _ (t.regions.get_mem _ _)]
        rw [if_neg (by simp)]
        dsimp only [ebind_ok]
        rw [pyListIndex_nodup_get hregnd _ hrid4']
        dsimp only [ebind_ok]
        rw [pyListIndex_nodup_get hrndnd _ hdR]
        dsimp only [ebind_ok]
        rw [if_neg (by omega)]
        rw [show ((log2 (n + 1) : Int)).toNat = log2 (n + 1) from rfl]
        rw [Nat.one_shiftLeft]
        rw [hgs4]
        rw [if_neg (by exact_mod_cast hgsne)]
        have hnat : (2 ^ log2 (n + 1) - 1) +
            ((n + 1 - 2 ^ log2 (n + 1)) / 2 ^ (log2 (n + 1) - 2)) *
              2 ^ (log2 (n + 1) - 2) +
            (n + 1 - 2 ^ log2 (n + 1)) % 2 ^ (log2 (n + 1) - 2) = n := by
          have hdm := Nat.div_add_mod (n + 1 - 2 ^ log2 (n + 1))
            (2 ^ (log2 (n + 1) - 2))
          rw [Nat.mul_comm ((n + 1 - 2 ^ log2 (n + 1)) / 2 ^ (log2 (n + 1) - 2))
            (2 ^ (log2 (n + 1) - 2)), Nat.add_assoc, hdm]
          omega
        congr 1
        exact_mod_cast hnat
      unfold roundTrip
      rw [hlk]
      dsimp only [ebind_ok]
      exact hidx

/-- C1, witness: the default 6-round, 4-region tournament round-trips
the valid heap index 4. -/
theorem c1_witness : roundTrip (mkTournament "w") 4 = .ok 4 :=
  c1_amended_roundtrip (mkTournament "w") 4 (by decide) (by decide)
    (by decide) (by decide) (by decide) (by decide)

end NCAA
